import Mathlib

/-!
Verification of the tradle/protocol object-signing core against its
specification.  The development shallowly embeds the current TypeScript
implementation (the index.ts shipped with the package, together with
lib/types.ts, lib/utils.ts and lib/constants): JavaScript strings are lists
of UTF-16 code units, JSON-like values are an inductive type, JavaScript
objects are insertion-ordered association lists, and fallible code returns
Except.  External primitives that the spec declares out of scope (SHA-256,
elliptic-curve point arithmetic, the embedded-media URI codec, JSON.parse,
Date.now and String.prototype.toLowerCase) are fields of an explicit
parameter structure ExtFns; every theorem quantifies over them unless the
property under scrutiny depends on a concrete choice, in which case a
concrete instantiation is supplied.
-/

/-- JavaScript string, as its list of UTF-16 code units. -/
abbrev Str := List Nat

/-- Code units of a Lean string literal (all literals used here are ASCII,
where code points and UTF-16 units agree). -/
def String.codes (s : String) : Str := s.data.map Char.toNat

/-- Lowercasing of a single ASCII code unit; models what
String.prototype.toLowerCase does on the ASCII range (all keys appearing in
the repository are ASCII). -/
def lowerCode (c : Nat) : Nat := if 65 ≤ c ∧ c ≤ 90 then c + 32 else c

/-- Lexicographic strict order on code-unit lists: the semantics of the
JavaScript < operator on strings (compare UTF-16 units left to right, a
proper prefix is smaller). -/
def lexLt : Str → Str → Bool
  | [], [] => false
  | [], _ :: _ => true
  | _ :: _, [] => false
  | a :: as, b :: bs => if a < b then true else if b < a then false else lexLt as bs

/-- Stable insertion into a list sorted by le: the new element is placed
before the first element not below it, so among le-equivalent elements the
earlier-inserted one stays first. -/
def insertLe {α : Type} (le : α → α → Bool) (x : α) : List α → List α
  | [] => [x]
  | y :: ys => if le x y then x :: y :: ys else y :: insertLe le x ys

/-- Stable sort (insertion sort).  Models Array.prototype.sort with a
comparator cmp, which ECMAScript requires to be stable, via the
non-strict comparison le a b = (cmp a b <= 0). -/
def sortLe {α : Type} (le : α → α → Bool) : List α → List α
  | [] => []
  | x :: xs => insertLe le x (sortLe le xs)

/-- Concatenation with a separator, as Array.prototype.join. -/
def joinSep (sep : Str) : List Str → Str
  | [] => []
  | [x] => x
  | x :: xs => x ++ sep ++ joinSep sep xs

/-- Lowercase hex digit of a value below 16 (Buffer hex encoding is
lowercase). -/
def hexDigit (d : Nat) : Nat := if d < 10 then 48 + d else 87 + d

/-- Hex encoding of a byte list: Buffer.prototype.toString with
encoding hex. -/
def hexEncode (b : List Nat) : Str := b.flatMap (fun x => [hexDigit (x / 16), hexDigit (x % 16)])

/-- Value of a single hex digit code unit, if it is one. -/
def hexDigitVal (c : Nat) : Option Nat :=
  if 48 ≤ c ∧ c ≤ 57 then some (c - 48)
  else if 97 ≤ c ∧ c ≤ 102 then some (c - 87)
  else if 65 ≤ c ∧ c ≤ 70 then some (c - 55)
  else none

/-- Hex decoding: Buffer.from(s, hex), which decodes the longest valid
even-length hex run from the start and ignores the rest. -/
def hexDecode : Str → List Nat
  | c1 :: c2 :: rest =>
    match hexDigitVal c1, hexDigitVal c2 with
    | some h, some l => (h * 16 + l) :: hexDecode rest
    | _, _ => []
  | _ => []

/-- Base64 alphabet as code units. -/
def base64Alphabet : Str :=
  ("ABCDEFGHIJKLMNOPQRSTUVWXYZabcdefghijklmnopqrstuvwxyz0123456789+/").codes

/-- Base64 encoding of a byte list: Buffer.prototype.toString with
encoding base64 (used when a header value happens to be a Buffer). -/
def base64Encode : List Nat → Str
  | [] => []
  | [a] =>
    [base64Alphabet.getD (a / 4) 0, base64Alphabet.getD (a % 4 * 16) 0, 61, 61]
  | [a, b] =>
    [base64Alphabet.getD (a / 4) 0, base64Alphabet.getD (a % 4 * 16 + b / 16) 0,
     base64Alphabet.getD (b % 16 * 4) 0, 61]
  | a :: b :: c :: rest =>
    [base64Alphabet.getD (a / 4) 0, base64Alphabet.getD (a % 4 * 16 + b / 16) 0,
     base64Alphabet.getD (b % 16 * 4 + c / 64) 0, base64Alphabet.getD (c % 64) 0]
      ++ base64Encode rest

/-- Big-endian interpretation of a byte list as a natural number (how
secp256k1 reads a 32-byte scalar). -/
def beNat (b : List Nat) : Nat := b.foldl (fun acc x => acc * 256 + x) 0

/-- JSON-like JavaScript value.  undef is the JavaScript value undefined
(distinct from null), buf is a Node.js Buffer. -/
inductive Json where
  | undef : Json
  | null : Json
  | bool : Bool → Json
  | num : Int → Json
  | str : Str → Json
  | buf : List Nat → Json
  | arr : List Json → Json
  | obj : List (Str × Json) → Json

/-- JavaScript object: insertion-ordered association list of properties.
Object.keys enumerates string keys in insertion order (the repository never
uses integer-like keys, whose enumeration order would differ). -/
abbrev JsObj := List (Str × Json)

/-- Property lookup (first matching key). -/
def getProp : JsObj → Str → Option Json
  | [], _ => none
  | (k, v) :: rest, key => if k = key then some v else getProp rest key

/-- Presence test: the JavaScript operator (key in obj). -/
def hasProp (obj : JsObj) (k : Str) : Bool := (getProp obj k).isSome

/-- Property read: obj[k], which is undefined when the key is absent. -/
def jsGet (obj : JsObj) (k : Str) : Json := (getProp obj k).getD Json.undef

/-- Property write obj[k] = v: overwrites in place when the key exists,
appends otherwise (insertion order of the other keys is unchanged). -/
def setProp : JsObj → Str → Json → JsObj
  | [], k, v => [(k, v)]
  | (k1, v1) :: rest, k, v =>
    if k1 = k then (k1, v) :: rest else (k1, v1) :: setProp rest k v

/-- Keys in insertion order: Object.keys. -/
def keysOf (obj : JsObj) : List Str := obj.map Prod.fst

/-- The exists helper of lib/utils.ts: input is neither null nor
undefined. -/
def jsExists : Json → Bool
  | .undef => false
  | .null => false
  | _ => true

/-- Test for typeof v === (the string type). -/
def isStrB : Json → Bool
  | .str _ => true
  | _ => false

/-- Test for typeof v === (the number type). -/
def isNumB : Json → Bool
  | .num _ => true
  | _ => false

/-- Strict equality (===) between two JavaScript values: primitives by
value, objects / arrays / buffers by reference.  Distinct heap objects are
never identical, which is the situation at every comparison site in the
source, so the reference case is modelled as false. -/
def jsEqPrim : Json → Json → Bool
  | .str a, .str b => a = b
  | .num a, .num b => a = b
  | .bool a, .bool b => a = b
  | .null, .null => true
  | .undef, .undef => true
  | _, _ => false

/-- Strict equality of a JavaScript value against a known string. -/
def jsEqStr (v : Json) (s : Str) : Bool :=
  match v with
  | .str t => t = s
  | _ => false

/-- Comparison object[TIMESTAMP] > prev[TIMESTAMP] for the case both are
numbers; JavaScript coercion for other operand types is not exercised by
the repository and is modelled as false. -/
def jsNumGt : Json → Json → Bool
  | .num a, .num b => b < a
  | _, _ => false

/-- Test for (v ?? 0) > 0 as used by isPermalinked in lib/types.ts.
Non-number, non-nullish version values would be coerced by JavaScript;
the repository only stores numbers, modelled here as false. -/
def versionOrZeroPos : Json → Bool
  | .num n => 0 < n
  | _ => false

/-- JSON string escaping of one code unit, as JSON.stringify. -/
def escapeChar (c : Nat) : Str :=
  if c = 34 then [92, 34]
  else if c = 92 then [92, 92]
  else if c = 8 then [92, 98]
  else if c = 9 then [92, 116]
  else if c = 10 then [92, 110]
  else if c = 12 then [92, 102]
  else if c = 13 then [92, 114]
  else if c < 32 then [92, 117, 48, 48, hexDigit (c / 16), hexDigit (c % 16)]
  else [c]

/-- Quoted JSON representation of a string value. -/
def jsonQuote (s : Str) : Str := 34 :: s.flatMap escapeChar ++ [34]

/-- Decimal representation of an integer (JavaScript number formatting for
the integral values the protocol stores). -/
def intStr (n : Int) : Str := (toString n).codes

/-- Serialization of a Buffer under JSON.stringify: Buffer.prototype.toJSON
produces an object with keys data and type, which stringify then sorts
(data before type).  The braces are code units 123 and 125. -/
def bufJsonStr (b : List Nat) : Str :=
  [123] ++ jsonQuote (("data").codes) ++ [58, 91]
    ++ joinSep [44] (b.map intStr) ++ [93, 44]
    ++ jsonQuote (("type").codes) ++ [58]
    ++ jsonQuote (("Buffer").codes) ++ [125]

mutual

/-- Canonical serialization: json-stable-stringify with the default
comparator.  Returns none exactly where the library returns undefined
(a top-level undefined value); arrays render undefined entries as null;
object entries whose value serializes to undefined are skipped and the
remaining entries are emitted in ascending key order (the default
Array.prototype.sort comparator, i.e. plain UTF-16 lexicographic order).
Here each entry is serialized first and the serialized entries are then
stable-sorted by key, which produces the same output.  The braces are code
units 123 and 125, the colon 58, the comma 44, the brackets 91 and 93. -/
def stringifyP : Json → Option Str
  | .undef => none
  | .null => some (("null").codes)
  | .bool true => some (("true").codes)
  | .bool false => some (("false").codes)
  | .num n => some (intStr n)
  | .str s => some (jsonQuote s)
  | .buf b => some (bufJsonStr b)
  | .arr xs => some ([91] ++ joinSep [44] (stringifyArr xs) ++ [93])
  | .obj kvs =>
    let parts := stringifyEntries kvs
    let sorted := sortLe (fun a b => !(lexLt b.1 a.1)) parts
    some ([123] ++ joinSep [44]
      (sorted.filterMap (fun e => e.2.map (fun v => jsonQuote e.1 ++ [58] ++ v))) ++ [125])

/-- Serialization of array elements (undefined becomes null). -/
def stringifyArr : List Json → List Str
  | [] => []
  | x :: xs => ((stringifyP x).getD (("null").codes)) :: stringifyArr xs

/-- Serialization of object entries, keeping the key for sorting. -/
def stringifyEntries : List (Str × Json) → List (Str × Option Str)
  | [] => []
  | (k, v) :: rest => (k, stringifyP v) :: stringifyEntries rest

end

/-- Total wrapper around stringifyP; every call site in the source feeds it
values already validated to contain no undefined. -/
def stringify (j : Json) : Str := (stringifyP j).getD []

/-- Reserved property name for the signature, from the external package
tradle/constants (SIG).  Only the distinctness of the reserved names is
relied on by the theorems below. -/
def SIG : Str := ("_s").codes

/-- Reserved property name for the object type (TYPE). -/
def TYPE : Str := ("_t").codes

/-- Reserved property name for the link to the previous version
(PREVLINK). -/
def PREVLINK : Str := ("_p").codes

/-- Reserved property name for the permalink, i.e. the link of the first
version (PERMALINK). -/
def PERMALINK : Str := ("_r").codes

/-- Reserved property name for the header hash of the previous version
(PREVHEADER). -/
def PREVHEADER : Str := ("_ph").codes

/-- Reserved property name for the version number (VERSION). -/
def VERSION : Str := ("_v").codes

/-- Reserved property name for the timestamp (TIMESTAMP). -/
def TIMESTAMP : Str := ("_time").codes

/-- Reserved property name for the author identity (AUTHOR). -/
def AUTHOR : Str := ("_author").codes

/-- Reserved property name for the witness signatures (WITNESSES). -/
def WITNESSES : Str := ("_w").codes

/-- Reserved property name for the organizational signature (ORG_SIG). -/
def ORG_SIG : Str := ("_o").codes

/-- Reserved property name for the protocol version (PROTOCOL_VERSION). -/
def PROTOCOL_VERSION : Str := ("_protocol").codes

/-- The distinguished identity type string (TYPES.IDENTITY). -/
def IDENTITY : Str := ("tradle.Identity").codes

/-- Header property lists of lib/constants: LINK_HEADER_PROPS is just the
signature, HEADER_PROPS adds witnesses and the organizational
signature. -/
def LINK_HEADER_PROPS : List Str := [SIG]

/-- Header properties excluded from the merkle tree body: signature,
witnesses, organizational signature. -/
def HEADER_PROPS : List Str := LINK_HEADER_PROPS ++ [WITNESSES, ORG_SIG]

/-- Error taxonomy of lib/errors: InvalidInput, its subtype InvalidVersion,
InvalidProperty, and plain Error for the remaining throw sites. -/
inductive Err where
  | invalidInput : Str → Err
  | invalidVersion : Str → Err
  | invalidProperty : Str → Str → Err
  | genericError : Str → Err
deriving DecidableEq, Repr

deriving instance DecidableEq for Except

/-- External primitives used by the implementation but out of scope of the
specification: the SHA-256 digest, String.prototype.toLowerCase, the two
elliptic-curve point-addition backends (secp256k1.publicKeyCombine and the
elliptic library), the tradle/embed URI codec, JSON.parse and Date.now.
They are threaded as explicit parameters; theorems hold for every
instantiation unless stated otherwise. -/
structure ExtFns where
  sha256 : List Nat → List Nat
  jsToLower : Str → Str
  secpCombine : List Nat → List Nat → List Nat
  ellipticAdd : Str → List Nat → List Nat → List Nat
  isKeeperUri : Str → Bool
  keeperUriHash : Str → Str
  decodeDataURI : Str → Option (List Nat)
  jsonParse : Str → Option Json
  now : Int

/-- The ensureSigned check of lib/types.ts: typeof obj[SIG] must be
string. -/
def ensureSigned (obj : JsObj) : Except Err Unit :=
  if isStrB (jsGet obj SIG) then .ok ()
  else .error (.invalidProperty SIG (("expected signed object").codes))

/-- The ensureUnsigned check of lib/types.ts: the SIG key must be
absent. -/
def ensureUnsigned (obj : JsObj) : Except Err Unit :=
  if hasProp obj SIG then .error (.invalidProperty SIG (("expected unsigned object").codes))
  else .ok ()

/-- Buffer header values are re-encoded as base64 text by getHeader. -/
def base64IfBuf : Json → Json
  | .buf b => .str (base64Encode b)
  | v => v

/-- The getHeader helper of index.ts: asserts the object is signed, picks
the requested properties (lodash pick keeps them in the order of the props
list and only when present), and re-encodes Buffer values as base64. -/
def getHeader (obj : JsObj) (props : List Str) : Except Err JsObj := do
  _ ← ensureSigned obj
  .ok (props.filterMap (fun p => (getProp obj p).map (fun v => (p, base64IfBuf v))))

/-- The getSealHeader helper: the header over HEADER_PROPS (signature,
witnesses, org signature). -/
def getSealHeader (obj : JsObj) : Except Err JsObj := getHeader obj HEADER_PROPS

/-- The getLinkHeader helper: the header over LINK_HEADER_PROPS (signature
only). -/
def getLinkHeader (obj : JsObj) : Except Err JsObj := getHeader obj LINK_HEADER_PROPS

/-- Hex header hash: hashHeader with the default hex encoding, i.e.
sha256(stringify(header)) rendered as lowercase hex (headerHashFn is
sha256). -/
def hashHeaderHex (E : ExtFns) (header : JsObj) : Str :=
  hexEncode (E.sha256 (stringify (Json.obj header)))

/-- The exported headerHash, i.e. getSealHeaderHash:
hashHeader(getSealHeader(object)). -/
def getSealHeaderHash (E : ExtFns) (obj : JsObj) : Except Err Str :=
  (getSealHeader obj).map (hashHeaderHex E)

/-- Result of getLink: raw bytes or an encoded string, matching the
Buffer-or-string return type in the source. -/
inductive BufOrStr where
  | buf : List Nat → BufOrStr
  | str : Str → BufOrStr
deriving DecidableEq, Repr

/-- Input to getLink and to the orig argument of validateVersioning:
a Buffer, a string, or an object. -/
inductive LinkInput where
  | buf : List Nat → LinkInput
  | str : Str → LinkInput
  | obj : JsObj → LinkInput

/-- Object branch of getLink: assert signedness, then hash the
LINK_HEADER_PROPS header.  The enc argument models the encoding parameter:
some () is the hex default (also reached when the caller passes undefined,
because a JavaScript default parameter replaces undefined), none is the
only way to obtain raw bytes (passing null). -/
def getLinkObj (E : ExtFns) (o : JsObj) (enc : Option Unit) : Except Err BufOrStr := do
  _ ← ensureSigned o
  let h ← getLinkHeader o
  match enc with
  | some _ => .ok (.str (hashHeaderHex E h))
  | none => .ok (.buf (E.sha256 (stringify (Json.obj h))))

/-- The exported link function, getLink of index.ts.  A 32-byte Buffer is
returned as is (hex-encoded under the default encoding); a longer Buffer or
a string is fed through JSON.parse; an object is hashed via its link
header. -/
def getLink (E : ExtFns) (input : LinkInput) (enc : Option Unit) : Except Err BufOrStr :=
  match input with
  | .buf b =>
    if b.length = 32 then
      match enc with
      | some _ => .ok (.str (hexEncode b))
      | none => .ok (.buf b)
    else
      match E.jsonParse (hexEncode b) with
      | some (Json.obj o) => getLinkObj E o enc
      | some _ => .error (.invalidProperty SIG (("expected signed object").codes))
      | none => .error (.genericError (("JSON.parse failed").codes))
  | .str s =>
    match E.jsonParse s with
    | some (Json.obj o) => getLinkObj E o enc
    | some _ => .error (.invalidProperty SIG (("expected signed object").codes))
    | none => .error (.genericError (("JSON.parse failed").codes))
  | .obj o => getLinkObj E o enc

/-- Link as a hex string: getLink at the default encoding (the deprecated
getStringLink alias is the same function). -/
def getLinkStr (E : ExtFns) (input : LinkInput) : Except Err Str :=
  match getLink E input (some ()) with
  | .ok (.str s) => .ok s
  | .ok (.buf b) => .ok (hexEncode b)
  | .error e => .error e

/-- The removeHeader helper (exported as body): lodash omit of the
HEADER_PROPS, preserving the order of the remaining properties. -/
def removeHeader (obj : JsObj) : JsObj :=
  obj.filter (fun e => !(decide (e.1 ∈ HEADER_PROPS)))

/-- Count of trailing one bits, with explicit fuel so that the definition
reduces by iota; the fuel i + 1 dominates the number of halvings of i. -/
def ctOnes : Nat → Nat → Nat
  | 0, _ => 0
  | fuel + 1, i => if i % 2 = 1 then ctOnes fuel (i / 2) + 1 else 0

/-- Depth of a node in flat-tree numbering (the external flat-tree
package): the number of trailing one bits of the index. -/
def flatDepth (i : Nat) : Nat := ctOnes (i + 1) i

/-- Flat-tree index of the node at a given depth and offset:
offset shifted left by depth + 1, with the low depth bits set. -/
def flatIndex (depth offset : Nat) : Nat :=
  offset * 2 ^ (depth + 1) + (2 ^ depth - 1)

/-- Offset of a flat-tree node within its depth row. -/
def flatOffset (i : Nat) : Nat := i / 2 ^ (flatDepth i + 1)

/-- Parent index in flat-tree numbering. -/
def flatParent (i : Nat) : Nat :=
  flatIndex (flatDepth i + 1) (flatOffset i / 2)

/-- Merkle tree node as emitted by merkle-tree-stream: flat-tree index,
cached parent index, hash, leaf payload (none on internal nodes) and
subtree byte size. -/
structure MTNode where
  index : Nat
  parent : Nat
  hash : List Nat
  data : Option Str
  size : Nat
deriving DecidableEq, Repr

/-- Pluggable hash pair of the merkle engine.  The source passes whole
node records to leaf and parent; the default implementation and every
override in the repository read only node.data respectively the two child
hashes, which is what is modelled. -/
structure MerkleOpts where
  leaf : Str → List Nat
  parent : List Nat → List Nat → List Nat

/-- The DEFAULT_MERKLE_OPTS of index.ts: leaf is sha256(node.data), parent
is sha256 over the concatenation of the two child hashes. -/
def defaultMerkleOpts (E : ExtFns) : MerkleOpts :=
  { leaf := fun d => E.sha256 d, parent := fun a b => E.sha256 (a ++ b) }

/-- Leaf node construction in merkle-tree-stream: index 2 * blocks, parent
from flat-tree, hash from the pluggable leaf function. -/
def mkLeaf (opts : MerkleOpts) (blocks : Nat) (data : Str) : MTNode :=
  { index := 2 * blocks, parent := flatParent (2 * blocks),
    hash := opts.leaf data, data := some data, size := data.length }

/-- Parent node construction in merkle-tree-stream: index is the shared
flat-tree parent of the two children. -/
def mkParentNode (opts : MerkleOpts) (left right : MTNode) : MTNode :=
  { index := left.parent, parent := flatParent left.parent,
    hash := opts.parent left.hash right.hash, data := none,
    size := left.size + right.size }

/-- Root-combination loop of merkle-tree-stream generator next: push the
new node, then while the two newest roots share a flat-tree parent replace
them by that parent node.  The roots are kept newest first here (the source
keeps them oldest first at the end of an array); the function returns the
new roots and the parent nodes created, in creation order. -/
def addRoot (opts : MerkleOpts) (node : MTNode) :
    List MTNode → List MTNode × List MTNode
  | [] => ([node], [])
  | left :: rest =>
    if left.parent = node.parent then
      let p := mkParentNode opts left node
      let res := addRoot opts p rest
      (res.1, p :: res.2)
    else (node :: left :: rest, [])

/-- Generator state: pending roots (newest first) and the number of leaves
fed so far. -/
structure GenState where
  roots : List MTNode
  blocks : Nat

/-- One generator step (gen.next with data): create the leaf, append it and
any parents produced by the combination loop. -/
def genNext (opts : MerkleOpts) (st : GenState) (data : Str) :
    GenState × List MTNode :=
  let leafNode := mkLeaf opts st.blocks data
  let res := addRoot opts leafNode st.roots
  ({ roots := res.1, blocks := st.blocks + 1 }, leafNode :: res.2)

/-- Feeding a list of leaf payloads through the generator, accumulating the
emitted nodes in order. -/
def genFeed (opts : MerkleOpts) (st : GenState) : List Str → GenState × List MTNode
  | [] => (st, [])
  | d :: ds =>
    let step := genNext opts st d
    let rest := genFeed opts step.1 ds
    (rest.1, step.2 ++ rest.2)

/-- Modelled from the spec: the close-up step of the pinned
merkle-tree-stream fork (gen.next(CLOSE_UP)), whose source is not part of
this repository.  Remaining roots are paired up right to left, the unpaired
node being carried up unchanged, until a single root remains; each created
parent node is emitted.  The first argument is the newest root, the second
the remaining roots (newest first). -/
def closeUp (opts : MerkleOpts) : MTNode → List MTNode → MTNode × List MTNode
  | r, [] => (r, [])
  | right, left :: rest =>
    let p := mkParentNode opts left right
    let res := closeUp opts p rest
    (res.1, p :: res.2)

/-- The alphabetical comparator of index.ts: compare the lowercased
strings with the JavaScript < and > operators, returning -1, 1 or 0. -/
def alphabetical (E : ExtFns) (a b : Str) : Int :=
  let al := E.jsToLower a
  let bl := E.jsToLower b
  if lexLt al bl then -1 else if lexLt bl al then 1 else 0

/-- Non-strict key order induced by the alphabetical comparator (keep a
before b whenever the comparator is at most 0), the order under which the
stable Array.prototype.sort arranges the keys. -/
def alphaLe (E : ExtFns) (a b : Str) : Bool := decide (alphabetical E a b ≤ 0)

/-- The getKeysSorted helper of index.ts:
Object.keys(obj).sort(alphabetical), a stable case-insensitive sort of the
keys in insertion order. -/
def getKeysSorted (E : ExtFns) (obj : JsObj) : List Str :=
  sortLe (alphaLe E) (keysOf obj)

/-- Major component of a semver string: getSemverMajor, i.e.
parseInt(semver.split(.)[0]); none models NaN. -/
def getSemverMajor (s : Str) : Option Nat :=
  let first := s.takeWhile (fun c => c ≠ 46)
  let digits := first.takeWhile (fun c => 48 ≤ c ∧ c ≤ 57)
  if digits.isEmpty then none
  else some (digits.foldl (fun acc c => acc * 10 + (c - 48)) 0)

/-- The VERSION_BEFORE_PROTOCOL_VERSION_PROP constant. -/
def VERSION_BEFORE_PROTOCOL_VERSION_PROP : Str := ("4.0.0").codes

/-- Protocol version string of an object:
obj[PROTOCOL_VERSION] ?? VERSION_BEFORE_PROTOCOL_VERSION_PROP.  A present
non-string value would make the subsequent split call throw in JavaScript;
such objects are outside the modelled input space and fall back to the
default here. -/
def protocolVersionString (obj : JsObj) : Str :=
  match jsGet obj PROTOCOL_VERSION with
  | .str s => s
  | _ => VERSION_BEFORE_PROTOCOL_VERSION_PROP

/-- Replacement of one string value by normalizeEmbeddedMedia: a keeper URI
becomes its embedded hash, a data URI becomes the hex of the pluggable leaf
hash of its decoded bytes, a malformed data URI (decode throws) and every
other string are left untouched. -/
def normString (E : ExtFns) (opts : MerkleOpts) (s : Str) : Str :=
  if E.isKeeperUri s then E.keeperUriHash s
  else if (("data:").codes).isPrefixOf s then
    match E.decodeDataURI s with
    | some bytes => hexEncode (opts.leaf bytes)
    | none => s
  else s

mutual

/-- Deep string replacement performed by normalizeEmbeddedMedia via
traverse: every string value anywhere in the tree is rewritten by
normString, everything else is kept. -/
def normVal (E : ExtFns) (opts : MerkleOpts) : Json → Json
  | .str s => .str (normString E opts s)
  | .arr xs => .arr (normList E opts xs)
  | .obj kvs => .obj (normEntries E opts kvs)
  | v => v

/-- Normalization of array elements. -/
def normList (E : ExtFns) (opts : MerkleOpts) : List Json → List Json
  | [] => []
  | x :: xs => normVal E opts x :: normList E opts xs

/-- Normalization of object entries (keys are untouched, traverse visits
values only). -/
def normEntries (E : ExtFns) (opts : MerkleOpts) :
    List (Str × Json) → List (Str × Json)
  | [] => []
  | (k, v) :: rest => (k, normVal E opts v) :: normEntries E opts rest

end

/-- The normalizeEmbeddedMedia function of index.ts applied to a top-level
object. -/
def normalizeEmbeddedMedia (E : ExtFns) (opts : MerkleOpts) (obj : JsObj) : JsObj :=
  normEntries E opts obj

/-- The preProcessForMerklization function of index.ts: above semver major
4 the object is deep-copied and its embedded media normalized, otherwise it
is returned unchanged.  The deep copy is value semantics here, so the
argument is never mutated in either branch. -/
def preProcessForMerklization (E : ExtFns) (opts : MerkleOpts) (obj : JsObj) : JsObj :=
  match getSemverMajor (protocolVersionString obj) with
  | some major => if 4 < major then normalizeEmbeddedMedia E opts obj else obj
  | none => obj

/-- Key and value node indices for one property, as stored in the indices
map. -/
structure TreeIndex where
  key : Nat
  value : Nat
deriving DecidableEq, Repr

/-- Accumulating loop of getIndices: the n-th key (counter i = 2n) is
assigned flat-tree leaf positions flatIndex(0, i) and flatIndex(0, i+1). -/
def getIndicesAux : Nat → List Str → List (Str × TreeIndex)
  | _, [] => []
  | i, k :: ks =>
    (k, { key := flatIndex 0 i, value := flatIndex 0 (i + 1) }) :: getIndicesAux (i + 2) ks

/-- The getIndices function of index.ts: property name to key/value
flat-tree leaf indices, over the canonically sorted keys (or a caller
supplied key list). -/
def getIndices (E : ExtFns) (obj : JsObj) (keys : Option (List Str)) :
    List (Str × TreeIndex) :=
  getIndicesAux 0 (keys.getD (getKeysSorted E obj))

/-- Merkle tree as returned by createMerkleTree: nodes sorted by flat-tree
index, the generator roots (oldest first) and the per-property index
map. -/
structure TradleTree where
  nodes : List MTNode
  roots : List MTNode
  indices : List (Str × TreeIndex)
deriving DecidableEq, Repr

/-- Comparator byIndexSort (a.index - b.index), as the non-strict order
used by the stable sort. -/
def byIndexLe (a b : MTNode) : Bool := decide (a.index ≤ b.index)

/-- Leaf payload sequence fed to the generator by createMerkleTree: for
each canonically sorted key, stringify(key) then
stringify(processed[key]). -/
def leafDataList (E : ExtFns) (opts : MerkleOpts) (obj : JsObj) : List Str :=
  let processed := preProcessForMerklization E opts obj
  (getKeysSorted E obj).flatMap
    (fun k => [stringify (Json.str k), stringify (jsGet processed k)])

/-- Close-up dispatch: with no pending roots (an empty object) nothing
happens and the tree keeps zero roots, otherwise the remaining roots are
folded into a single one by closeUp. -/
def closeAllRoots (opts : MerkleOpts) : List MTNode → List MTNode × List MTNode
  | [] => ([], [])
  | r :: rest =>
    let c := closeUp opts r rest
    ([c.1], c.2)

/-- The createMerkleTree function of index.ts (exported as tree): reject
signed objects, preprocess, feed stringify(key) and
stringify(processed[key]) for every canonically sorted key, close up the
generator, sort the emitted nodes by flat-tree index and pair them with the
roots and the indices map.  The per-key loop is expressed as one generator
run over the flattened payload list, which appends the same nodes in the
same order. -/
def createMerkleTree (E : ExtFns) (opts : MerkleOpts) (obj : JsObj) :
    Except Err TradleTree := do
  _ ← ensureUnsigned obj
  let res := genFeed opts { roots := [], blocks := 0 } (leafDataList E opts obj)
  let closed := closeAllRoots opts res.1.roots
  .ok { nodes := sortLe byIndexLe (res.2 ++ closed.2),
        roots := closed.1,
        indices := getIndices E obj (some (getKeysSorted E obj)) }

/-- Root extraction getMerkleRoot: the hash of the first root; the source
throws when the tree has none. -/
def getMerkleRoot (t : TradleTree) : Except Err (List Nat) :=
  match t.roots with
  | [] => .error (.genericError (("No root found in tree.").codes))
  | r :: _ => .ok r.hash

/-- The computeMerkleRoot function of index.ts (exported as merkleRoot). -/
def computeMerkleRoot (E : ExtFns) (opts : MerkleOpts) (obj : JsObj) :
    Except Err (List Nat) := do
  let t ← createMerkleTree E opts obj
  getMerkleRoot t

/-- The getLeaves helper (exported as leaves): the nodes with even
flat-tree index. -/
def getLeaves (nodes : List MTNode) : List MTNode :=
  nodes.filter (fun n => n.index % 2 = 0)

/-- The ensureTyped check of lib/types.ts: typeof obj[TYPE] must be
string. -/
def ensureTyped (obj : JsObj) : Except Err Unit :=
  if isStrB (jsGet obj TYPE) then .ok ()
  else .error (.invalidProperty TYPE (("expected string type").codes))

/-- The ensureTimestamp check of lib/types.ts: typeof obj[TIMESTAMP] must
be number. -/
def ensureTimestamp (obj : JsObj) : Except Err Unit :=
  if isNumB (jsGet obj TIMESTAMP) then .ok ()
  else .error (.invalidProperty TIMESTAMP (("expected number timestamp").codes))

/-- The ensureTimestampIncreased function of lib/types.ts.  Despite its
name it merely RETURNS the boolean object[TIMESTAMP] > prev[TIMESTAMP] and
asserts nothing; its one caller discards the result (see
validatePrevVersioning below and the TODO comment in the source). -/
def ensureTimestampIncreased (object prev : JsObj) : Bool :=
  jsNumGt (jsGet object TIMESTAMP) (jsGet prev TIMESTAMP)

/-- The isPermalinked predicate of lib/types.ts: permalink present and a
string, prevlink and prevheader strings, and version (defaulted to 0)
positive. -/
def isPermalinked (obj : JsObj) : Bool :=
  hasProp obj PERMALINK
    && isStrB (jsGet obj PERMALINK)
    && isStrB (jsGet obj PREVLINK)
    && isStrB (jsGet obj PREVHEADER)
    && versionOrZeroPos (jsGet obj VERSION)

/-- The isNotPermalinked predicate of lib/types.ts: prevlink and prevheader
strictly undefined, and version undefined or strictly 0.  Note that a
present permalink is not excluded here. -/
def isNotPermalinked (obj : JsObj) : Bool :=
  jsEqPrim (jsGet obj PREVLINK) Json.undef
    && jsEqPrim (jsGet obj PREVHEADER) Json.undef
    && (jsEqPrim (jsGet obj VERSION) Json.undef || jsEqPrim (jsGet obj VERSION) (Json.num 0))

/-- The isCorrectlyPermalinked predicate: one of the two shapes above. -/
def isCorrectlyPermalinked (obj : JsObj) : Bool :=
  isPermalinked obj || isNotPermalinked obj

/-- The ensureCorrectlyPermalinked assertion of lib/types.ts, raising
InvalidVersion when neither shape holds. -/
def ensureCorrectlyPermalinked (obj : JsObj) : Except Err Unit :=
  if isCorrectlyPermalinked obj then .ok ()
  else .error (.invalidVersion
    (("expected either permalink, prevlink and version > 0, or neither, and version === 0").codes))

mutual

/-- Deep search for a JavaScript undefined value, as the traverse walk in
findPathWithUndefinedVal of lib/types.ts. -/
def hasUndefined : Json → Bool
  | .undef => true
  | .arr xs => hasUndefinedList xs
  | .obj kvs => hasUndefinedEntries kvs
  | _ => false

/-- Deep undefined search in array elements. -/
def hasUndefinedList : List Json → Bool
  | [] => false
  | x :: xs => hasUndefined x || hasUndefinedList xs

/-- Deep undefined search in object entries. -/
def hasUndefinedEntries : List (Str × Json) → Bool
  | [] => false
  | (_, v) :: rest => hasUndefined v || hasUndefinedEntries rest

end

/-- The ensureRequiredPropsBase check of lib/types.ts: a string type
property and no undefined value anywhere in the tree. -/
def ensureRequiredPropsBase (obj : JsObj) : Except Err Unit := do
  _ ← ensureTyped obj
  if hasUndefinedEntries obj then
    .error (.invalidProperty ([]) (("must not have undefined values").codes))
  else .ok ()

/-- The ensureAuthor check of lib/types.ts: the author property is
forbidden on a version-less identity object and required everywhere
else. -/
def ensureAuthor (obj : JsObj) : Except Err Unit :=
  if jsEqStr (jsGet obj TYPE) IDENTITY && !(jsExists (jsGet obj VERSION)) then
    if jsExists (jsGet obj AUTHOR) then
      .error (.invalidInput (("unexpected property author").codes))
    else .ok ()
  else
    if !(jsExists (jsGet obj AUTHOR)) then
      .error (.invalidInput (("expected property author").codes))
    else .ok ()

/-- The ensureRequiredPropsPreSign check of lib/types.ts. -/
def ensureRequiredPropsPreSign (obj : JsObj) : Except Err Unit := do
  _ ← ensureRequiredPropsBase obj
  _ ← ensureCorrectlyPermalinked obj
  ensureTimestamp obj

/-- The ensureRequiredProps check of lib/types.ts. -/
def ensureRequiredProps (obj : JsObj) : Except Err Unit := do
  _ ← ensureRequiredPropsPreSign obj
  ensureAuthor obj

/-- The signedObject assertion of lib/types.ts. -/
def signedObjectCheck (obj : JsObj) : Except Err Unit := do
  _ ← ensureSigned obj
  _ ← ensureRequiredProps obj
  ensureCorrectlyPermalinked obj

/-- The createObjectInput assertion of lib/types.ts (the object field of a
createObject call): unsigned, typed, no undefined values. -/
def createObjectInputCheck (obj : JsObj) : Except Err Unit := do
  _ ← ensureUnsigned obj
  ensureRequiredPropsBase obj

/-- The merkleRootOrObj type of lib/types.ts: a signed object or a
Buffer (a plain string satisfies neither branch of the anyOf). -/
def merkleRootOrObjCheck : LinkInput → Except Err Unit
  | .buf _ => .ok ()
  | .obj o => ensureSigned o
  | .str _ => .error (.invalidInput (("expected merkle root or object").codes))

/-- Options record of createObject. -/
structure CreateObjectOpts where
  object : JsObj
  prev : Option JsObj
  orig : Option LinkInput

/-- The entireCreateObjectInput typeforce shape of lib/types.ts. -/
def entireCreateObjectInput (opts : CreateObjectOpts) : Except Err Unit := do
  _ ← createObjectInputCheck opts.object
  _ ← (match opts.prev with
       | some p => signedObjectCheck p
       | none => .ok ())
  (match opts.orig with
   | some o => merkleRootOrObjCheck o
   | none => .ok ())

/-- The registerProtocol step of createObject: a nullish protocolVersion is
replaced by the pre-protocolVersion default 4.0.0. -/
def registerProtocol (obj : JsObj) : JsObj :=
  if jsExists (jsGet obj PROTOCOL_VERSION) then obj
  else setProp obj PROTOCOL_VERSION (Json.str VERSION_BEFORE_PROTOCOL_VERSION_PROP)

/-- The registerTimestamp step of createObject: a nullish timestamp is
replaced by Date.now(). -/
def registerTimestamp (E : ExtFns) (obj : JsObj) : JsObj :=
  if jsExists (jsGet obj TIMESTAMP) then obj
  else setProp obj TIMESTAMP (Json.num E.now)

/-- Link-attachment phase of createObject: strip the header, then set
PREVLINK to the link of prev and PERMALINK to the link of orig when
supplied. -/
def applyLinks (E : ExtFns) (opts : CreateObjectOpts) : Except Err JsObj := do
  let obj := removeHeader opts.object
  let obj ←
    match opts.prev with
    | none => pure obj
    | some p => do
      let l ← getLinkStr E (.obj p)
      pure (setProp obj PREVLINK (Json.str l))
  match opts.orig with
  | none => pure obj
  | some og => do
    let l ← getLinkStr E og
    pure (setProp obj PERMALINK (Json.str l))

/-- The createObject function of index.ts (exported as object): validate
the input shape, strip the header and attach the links, enforce the
version-chain invariant, then default the protocol version and the
timestamp. -/
def createObject (E : ExtFns) (opts : CreateObjectOpts) : Except Err JsObj := do
  _ ← entireCreateObjectInput opts
  let obj ← applyLinks E opts
  _ ← ensureCorrectlyPermalinked obj
  let obj := registerProtocol obj
  pure (registerTimestamp E obj)

/-- The validatePrevVersioning function of index.ts.  The call to
ensureTimestampIncreased reproduces the source faithfully: its boolean
result is discarded (the TODO comment in the source flags exactly this),
so no timestamp relation is ever enforced here. -/
def validatePrevVersioning (E : ExtFns) (object : JsObj) (prev : Option JsObj) :
    Except Err Unit := do
  match prev with
  | none => .error (.invalidInput (("expected prev").codes))
  | some prev =>
    if !(jsExists (jsGet object PREVLINK)) then
      .error (.invalidInput (("expected object prevlink").codes))
    else
      let _ := ensureTimestampIncreased object prev
      do
        let checkPrevLink ← getLinkStr E (.obj prev)
        if !(jsEqStr (jsGet object PREVLINK) checkPrevLink) then
          .error (.invalidInput (("object prevlink and prev do not match").codes))
        else if !(jsExists (jsGet object PREVHEADER)) then
          .error (.invalidInput (("expected object prevheader to be set").codes))
        else do
          let checkHeader ← getSealHeaderHash E prev
          if !(jsEqStr (jsGet object PREVHEADER) checkHeader) then
            .error (.invalidInput (("expected object prevheader to equal the header hash of prev").codes))
          else if jsExists (jsGet prev PERMALINK)
              && !(jsEqPrim (jsGet prev PERMALINK) (jsGet object PERMALINK)) then
            .error (.invalidInput (("expected object permalink to equal prev permalink").codes))
          else .ok ()

/-- The validateOrigVersioning function of index.ts. -/
def validateOrigVersioning (E : ExtFns) (object : JsObj) (orig : Option LinkInput) :
    Except Err Unit := do
  if !(jsExists (jsGet object PERMALINK)) then
    .error (.invalidInput (("expected object permalink").codes))
  else
    match orig with
    | none => .error (.invalidInput (("expected orig").codes))
    | some orig => do
      let expectedOrig ←
        match orig with
        | .str s => pure s
        | og => getLinkStr E og
      if !(jsEqStr (jsGet object PERMALINK) expectedOrig) then
        .error (.invalidInput (("object permalink and orig do not match").codes))
      else .ok ()

/-- The validateVersioning function of index.ts: a zero (or absent) version
must come with no prev or orig material at all, a non-zero version is
validated against prev and orig. -/
def validateVersioning (E : ExtFns) (object : JsObj) (prev : Option JsObj)
    (orig : Option LinkInput) : Except Err Unit :=
  let expectsZero := !(jsExists (jsGet object PREVLINK) || prev.isSome
    || jsExists (jsGet object PERMALINK) || orig.isSome)
  let isZero := !(jsExists (jsGet object VERSION))
    || jsEqPrim (jsGet object VERSION) (Json.num 0)
  if isZero then
    if !expectsZero then
      .error (.invalidVersion (("expected version to be non-zero with prev or orig present").codes))
    else .ok ()
  else
    if expectsZero then
      .error (.invalidVersion (("expected version to be 0 if neither prevlink nor permalink is set").codes))
    else do
      _ ← validatePrevVersioning E object prev
      validateOrigVersioning E object orig

/-- Order of the secp256k1 group (the bound checked by
secp256k1.privateKeyVerify). -/
def secpOrder : Nat :=
  0xFFFFFFFFFFFFFFFFFFFFFFFFFFFFFFFEBAAEDCE6AF48A03BBFD25E8CD0364141

/-- The secp256k1.privateKeyVerify primitive: a 32-byte scalar that is
neither zero nor at or above the group order. -/
def privateKeyVerify (b : List Nat) : Bool :=
  b.length = 32 && decide (0 < beNat b) && decide (beNat b < secpOrder)

/-- Initial normalization in toPrivateKey: hex-decode string input, then
hash once if the length is not 32. -/
def toPrivateKeyInit (E : ExtFns) : BufOrStr → List Nat
  | .str s => let p := hexDecode s; if p.length ≠ 32 then E.sha256 p else p
  | .buf b => if b.length ≠ 32 then E.sha256 b else b

/-- Retry loop of toPrivateKey: re-hash until privateKeyVerify accepts.
The source loop is unbounded; fuel makes it a total function, and none
models non-termination within the allotted fuel. -/
def toPrivateKeyLoop (E : ExtFns) : Nat → List Nat → Option (List Nat)
  | 0, p => if privateKeyVerify p then some p else none
  | fuel + 1, p => if privateKeyVerify p then some p else toPrivateKeyLoop E fuel (E.sha256 p)

/-- The toPrivateKey function of index.ts (privateKeyFromHash of the
spec). -/
def toPrivateKey (E : ExtFns) (fuel : Nat) (priv : BufOrStr) : Option (List Nat) :=
  toPrivateKeyLoop E fuel (toPrivateKeyInit E priv)

/-- Public key record of lib/utils.ts: curve identifier string and point
bytes. -/
structure PublicKey where
  curve : Str
  pub : List Nat
deriving DecidableEq, Repr

/-- Elliptic point addition dispatch of publicKeyCombineEach: the secp256k1
native backend for that curve, the generic elliptic library otherwise. -/
def ecPointAdd (E : ExtFns) (curve : Str) (a b : List Nat) : List Nat :=
  if curve = ("secp256k1").codes then E.secpCombine a b
  else E.ellipticAdd curve a b

/-- The publicKeyCombineEach function of lib/utils.ts: a hard error when
the curve identifiers differ, otherwise point addition on the shared
curve. -/
def publicKeyCombineEach (E : ExtFns) (a b : PublicKey) : Except Err PublicKey :=
  if a.curve ≠ b.curve then
    .error (.genericError (("Can not combine curves, curves of different type.").codes))
  else
    .ok { curve := a.curve, pub := ecPointAdd E a.curve a.pub b.pub }

/-- The publicKeyCombine entry point of lib/utils.ts, which accepts the two
keys as a pair (the array calling convention). -/
def publicKeyCombine (E : ExtFns) (ab : PublicKey × PublicKey) : Except Err PublicKey :=
  publicKeyCombineEach E ab.1 ab.2

/-- ASCII lowercase folding of a whole string, the concrete
String.prototype.toLowerCase used by concrete evaluations. -/
def asciiLower (s : Str) : Str := s.map lowerCode

/-- Concrete external-primitive instantiation for witnesses: the digest
primitive returns 32 zero bytes. -/
def extZero : ExtFns :=
  { sha256 := fun _ => List.replicate 32 0
    jsToLower := asciiLower
    secpCombine := fun a b => a ++ b
    ellipticAdd := fun _ a b => a ++ b
    isKeeperUri := fun _ => false
    keeperUriHash := fun s => s
    decodeDataURI := fun _ => none
    jsonParse := fun _ => none
    now := 1000 }

/-- Concrete external-primitive instantiation whose digest primitive is the
identity on byte lists. -/
def extId : ExtFns := { extZero with sha256 := fun s => s }

/-- Concrete external-primitive instantiation whose digest primitive always
returns one fixed valid secp256k1 scalar. -/
def extValidKey : ExtFns :=
  { extZero with sha256 := fun _ => List.replicate 31 0 ++ [1] }

/-- Identity-flavoured merkle options: leaf keeps the payload, parent
concatenates the child hashes.  These are exactly the override functions
exercised by the repository test named use different hash. -/
def idOpts : MerkleOpts := { leaf := fun d => d, parent := fun a b => a ++ b }

/-- Two-property object with keys a and A (inserted lowercase first) whose
keys collide under case folding. -/
def c1CollA : JsObj := [(("a").codes, Json.num 1), (("A").codes, Json.num 2)]

/-- The same property-to-value mapping as c1CollA with the opposite
insertion order. -/
def c1CollB : JsObj := [(("A").codes, Json.num 2), (("a").codes, Json.num 1)]

/-- Two-property object with fold-distinct keys, first insertion order. -/
def c1GoodA : JsObj := [(("a").codes, Json.num 1), (("b").codes, Json.num 2)]

/-- Two-property object with fold-distinct keys, second insertion order. -/
def c1GoodB : JsObj := [(("b").codes, Json.num 2), (("a").codes, Json.num 1)]

/-- Hex string of 32 zero bytes, the link every object has under
extZero. -/
def zeros64 : Str := hexEncode (List.replicate 32 0)

/-- Concrete signed previous version used by the timestamp fixture. -/
def c2prev : JsObj :=
  [(SIG, Json.str (("abc").codes)), (TYPE, Json.str (("x").codes)), (TIMESTAMP, Json.num 5)]

/-- Concrete successor object whose links all match c2prev under extZero
but whose timestamp does not exceed the one of c2prev. -/
def c2object : JsObj :=
  [(VERSION, Json.num 1), (PREVLINK, Json.str zeros64), (PERMALINK, Json.str zeros64),
   (PREVHEADER, Json.str zeros64), (TIMESTAMP, Json.num 5)]

/-- Concrete signed object carrying a witnesses property. -/
def c3obj : JsObj := [(SIG, Json.str (("abc").codes)), (WITNESSES, Json.arr [])]

/-- Concrete signed object carrying only a signature. -/
def c3plain : JsObj := [(SIG, Json.str (("abc").codes))]

/-- Well-formed createObject input: typed, authored, timestamped, no
version material. -/
def c7goodOpts : CreateObjectOpts :=
  { object := [(TYPE, Json.str (("something").codes)),
               (AUTHOR, Json.str (("bob").codes)), (TIMESTAMP, Json.num 5)]
    prev := none
    orig := none }

/-- The object created from c7goodOpts under extZero. -/
def c7goodOut : JsObj :=
  match createObject extZero c7goodOpts with
  | .ok o => o
  | .error _ => []

/-- createObject input that violates the version-chain invariant: version 1
without prevlink, prevheader or permalink. -/
def c7badOpts : CreateObjectOpts :=
  { object := [(TYPE, Json.str (("x").codes)), (VERSION, Json.num 1)]
    prev := none
    orig := none }

/-- The body constructed from c7badOpts before the invariant check. -/
def c7badBody : JsObj :=
  match applyLinks extZero c7badOpts with
  | .ok o => o
  | .error _ => []

/-- Concrete unsigned two-property object for merkle-tree witnesses. -/
def c4obj : JsObj := [(("a").codes, Json.num 1), (("b").codes, Json.num 2)]

/-- The tree built from c4obj under extZero and idOpts. -/
def c4tree : TradleTree :=
  match createMerkleTree extZero idOpts c4obj with
  | .ok t => t
  | .error _ => { nodes := [], roots := [], indices := [] }

/-- Concrete secp256k1 public key. -/
def c6KeyA : PublicKey := { curve := ("secp256k1").codes, pub := [2, 17] }

/-- Second concrete secp256k1 public key. -/
def c6KeyB : PublicKey := { curve := ("secp256k1").codes, pub := [3, 99] }

/-- Concrete public key on a different named curve. -/
def c6KeyC : PublicKey := { curve := ("ed25519").codes, pub := [7] }

/-- Well-formedness of a root list: every pending root caches the flat-tree
parent of its own index (an invariant merkle-tree-stream maintains and
relies on in its combination test). -/
def RootsWF (rs : List MTNode) : Prop := ∀ r ∈ rs, r.parent = flatParent r.index

/-- Leaf nodes the generator is expected to emit for a payload list,
starting at a given block count: the j-th payload becomes the leaf with
flat-tree index 2 * (blocks + j). -/
def expectedLeaves (opts : MerkleOpts) (blocks : Nat) : List Str → List MTNode
  | [] => []
  | d :: ds => mkLeaf opts blocks d :: expectedLeaves opts (blocks + 1) ds

theorem lexLt_irrefl (a : Str) : lexLt a a = false := by
  induction a with
  | nil => rfl
  | cons x xs ih => simp [lexLt, ih]

theorem lexLt_asymm : ∀ {a b : Str}, lexLt a b = true → lexLt b a = false
  | [], [], h => by simp [lexLt] at h
  | [], _ :: _, _ => by simp [lexLt]
  | _ :: _, [], h => by simp [lexLt] at h
  | x :: xs, y :: ys, h => by
    by_cases hxy : x < y
    · simp [lexLt, hxy, Nat.lt_asymm hxy, Nat.ne_of_lt hxy, (Nat.ne_of_lt hxy).symm]
    · by_cases hyx : y < x
      · simp [lexLt, hxy, hyx] at h
      · have hxy2 : x = y := Nat.le_antisymm (Nat.le_of_not_lt hyx) (Nat.le_of_not_lt hxy)
        subst hxy2
        simp only [lexLt, if_neg (Nat.lt_irrefl x)] at h ⊢
        exact lexLt_asymm h

theorem lexLt_trans : ∀ {a b c : Str}, lexLt a b = true → lexLt b c = true → lexLt a c = true
  | _, b, [], _, h2 => by cases b <;> simp [lexLt] at h2
  | [], _, _ :: _, _, _ => by simp [lexLt]
  | _ :: _, [], _, h1, _ => by simp [lexLt] at h1
  | x :: xs, y :: ys, z :: zs, h1, h2 => by
    by_cases hxy : x < y
    · by_cases hyz : y < z
      · have hxz : x < z := Nat.lt_trans hxy hyz
        simp [lexLt, hxz]
      · by_cases hzy : z < y
        · simp [lexLt, hxy, hyz, hzy] at h2
        · have : y = z := Nat.le_antisymm (Nat.le_of_not_lt hzy) (Nat.le_of_not_lt hyz)
          subst this
          simp [lexLt, hxy]
    · by_cases hyx : y < x
      · simp [lexLt, hxy, hyx] at h1
      · have hxy2 : x = y := Nat.le_antisymm (Nat.le_of_not_lt hyx) (Nat.le_of_not_lt hxy)
        subst hxy2
        simp only [lexLt, if_neg (Nat.lt_irrefl x)] at h1
        by_cases hyz : x < z
        · simp [lexLt, hyz]
        · by_cases hzy : z < x
          · simp [lexLt, hyz, hzy] at h2
          · have : x = z := Nat.le_antisymm (Nat.le_of_not_lt hzy) (Nat.le_of_not_lt hyz)
            subst this
            simp only [lexLt, if_neg (Nat.lt_irrefl x)] at h2 ⊢
            exact lexLt_trans h1 h2

theorem lexLt_conn : ∀ {a b : Str}, lexLt a b = false → lexLt b a = false → a = b
  | [], [], _, _ => rfl
  | [], _ :: _, h1, _ => by simp [lexLt] at h1
  | _ :: _, [], _, h2 => by simp [lexLt] at h2
  | x :: xs, y :: ys, h1, h2 => by
    by_cases hxy : x < y
    · simp [lexLt, hxy] at h1
    · by_cases hyx : y < x
      · simp [lexLt, hyx] at h2
      · have hxy2 : x = y := Nat.le_antisymm (Nat.le_of_not_lt hyx) (Nat.le_of_not_lt hxy)
        subst hxy2
        simp only [lexLt, if_neg (Nat.lt_irrefl x)] at h1 h2
        exact congrArg (x :: ·) (lexLt_conn h1 h2)

theorem alphaLe_iff (E : ExtFns) (a b : Str) :
    alphaLe E a b = !(lexLt (E.jsToLower b) (E.jsToLower a)) := by
  unfold alphaLe alphabetical
  by_cases h1 : lexLt (E.jsToLower a) (E.jsToLower b)
  · simp [h1, lexLt_asymm h1]
  · by_cases h2 : lexLt (E.jsToLower b) (E.jsToLower a)
    · simp [h1, h2]
    · simp [h1, h2]

theorem alphaLe_total (E : ExtFns) (a b : Str) :
    (alphaLe E a b || alphaLe E b a) = true := by
  rw [alphaLe_iff, alphaLe_iff]
  by_cases h : lexLt (E.jsToLower b) (E.jsToLower a)
  · simp [h, lexLt_asymm h]
  · simp [h]

theorem alphaLe_trans (E : ExtFns) {a b c : Str} (h1 : alphaLe E a b = true)
    (h2 : alphaLe E b c = true) : alphaLe E a c = true := by
  rw [alphaLe_iff] at h1 h2 ⊢
  simp only [Bool.not_eq_true'] at h1 h2 ⊢
  cases hbc : lexLt (E.jsToLower b) (E.jsToLower c) with
  | true =>
    cases hca : lexLt (E.jsToLower c) (E.jsToLower a) with
    | true =>
      have hba := lexLt_trans hbc hca
      rw [hba] at h1
      cases h1
    | false => rfl
  | false =>
    have heq := lexLt_conn h2 hbc
    rw [heq]
    exact h1

theorem alphaLe_antisymm_fold (E : ExtFns) {a b : Str} (h1 : alphaLe E a b = true)
    (h2 : alphaLe E b a = true) : E.jsToLower a = E.jsToLower b := by
  rw [alphaLe_iff] at h1 h2
  simp only [Bool.not_eq_true'] at h1 h2
  exact (lexLt_conn h2 h1)

theorem insertLe_perm {α : Type} (le : α → α → Bool) (x : α) :
    ∀ l : List α, (insertLe le x l).Perm (x :: l)
  | [] => List.Perm.refl _
  | y :: ys => by
    unfold insertLe
    by_cases h : le x y
    · simp [h]
    · simp only [h]
      exact ((insertLe_perm le x ys).cons y).trans (List.Perm.swap x y ys)

theorem sortLe_perm {α : Type} (le : α → α → Bool) :
    ∀ l : List α, (sortLe le l).Perm l
  | [] => List.Perm.refl _
  | x :: xs => by
    unfold sortLe
    exact (insertLe_perm le x (sortLe le xs)).trans ((sortLe_perm le xs).cons x)

theorem insertLe_pairwise {α : Type} {le : α → α → Bool}
    (htot : ∀ a b, (le a b || le b a) = true)
    (htrans : ∀ {a b c}, le a b = true → le b c = true → le a c = true)
    (x : α) : ∀ {l : List α}, l.Pairwise (fun a b => le a b = true) →
      (insertLe le x l).Pairwise (fun a b => le a b = true)
  | [], _ => List.Pairwise.cons (by simp) List.Pairwise.nil
  | y :: ys, h => by
    rw [List.pairwise_cons] at h
    unfold insertLe
    by_cases hxy : le x y
    · simp only [hxy, if_true]
      refine List.Pairwise.cons ?_ (List.Pairwise.cons h.1 h.2)
      intro z hz
      rcases List.mem_cons.1 hz with hz | hz
      · exact hz ▸ hxy
      · exact htrans hxy (h.1 z hz)
    · simp only [hxy, if_false, Bool.false_eq_true]
      have hyx : le y x = true := by
        have := htot x y
        cases hle : le x y
        · rw [hle] at this; simpa using this
        · exact absurd hle (by simp [hxy])
      refine List.Pairwise.cons ?_ (insertLe_pairwise htot htrans x h.2)
      intro z hz
      have hz2 := (insertLe_perm le x ys).mem_iff.1 hz
      rcases List.mem_cons.1 hz2 with hz2 | hz2
      · exact hz2 ▸ hyx
      · exact h.1 z hz2

theorem sortLe_pairwise {α : Type} {le : α → α → Bool}
    (htot : ∀ a b, (le a b || le b a) = true)
    (htrans : ∀ {a b c}, le a b = true → le b c = true → le a c = true) :
    ∀ l : List α, (sortLe le l).Pairwise (fun a b => le a b = true)
  | [] => List.Pairwise.nil
  | x :: xs => insertLe_pairwise htot htrans x (sortLe_pairwise htot htrans xs)

theorem perm_pairwise_eq {α : Type} {le : α → α → Bool} :
    ∀ {l₁ l₂ : List α}, l₁.Perm l₂ →
      l₁.Pairwise (fun a b => le a b = true) →
      l₂.Pairwise (fun a b => le a b = true) →
      (∀ a ∈ l₁, ∀ b ∈ l₁, le a b = true → le b a = true → a = b) →
      l₁ = l₂
  | [], l₂, hp, _, _, _ => (hp.nil_eq).symm ▸ rfl
  | a :: t₁, [], hp, _, _, _ => absurd hp (by simp [List.Perm])
  | a :: t₁, b :: t₂, hp, hs₁, hs₂, ha => by
    rw [List.pairwise_cons] at hs₁ hs₂
    by_cases hab : a = b
    · subst hab
      have ht : t₁.Perm t₂ := (List.perm_cons a).1 hp
      have := perm_pairwise_eq ht hs₁.2 hs₂.2 (fun x hx y hy => ha x (by simp [hx]) y (by simp [hy]))
      rw [this]
    · exfalso
      have hbmem : b ∈ a :: t₁ := hp.symm.subset (by simp)
      have hbt : b ∈ t₁ := by
        rcases List.mem_cons.1 hbmem with h | h
        · exact absurd h.symm hab
        · exact h
      have hamem : a ∈ b :: t₂ := hp.subset (by simp)
      have hat : a ∈ t₂ := by
        rcases List.mem_cons.1 hamem with h | h
        · exact absurd h hab
        · exact h
      have h1 : le a b = true := hs₁.1 b hbt
      have h2 : le b a = true := hs₂.1 a hat
      exact hab (ha a (by simp) b (by simp [hbt]) h1 h2)

theorem pairwise_strict_inj {α : Type} {f : α → Nat} :
    ∀ {l : List α}, l.Pairwise (fun x y => f x < f y) →
      ∀ a ∈ l, ∀ b ∈ l, f a = f b → a = b
  | [], _, a, ha, _, _, _ => absurd ha (List.not_mem_nil a)
  | x :: xs, h, a, ha, b, hb, hfab => by
    rw [List.pairwise_cons] at h
    rcases List.mem_cons.1 ha with ha1 | ha1
    · rcases List.mem_cons.1 hb with hb1 | hb1
      · rw [ha1, hb1]
      · exact absurd hfab (by subst ha1; exact Nat.ne_of_lt (h.1 b hb1))
    · rcases List.mem_cons.1 hb with hb1 | hb1
      · exact absurd hfab.symm (by subst hb1; exact Nat.ne_of_lt (h.1 a ha1))
      · exact pairwise_strict_inj h.2 a ha1 b hb1 hfab

theorem keysOf_perm {o₁ o₂ : JsObj} (h : o₁.Perm o₂) : (keysOf o₁).Perm (keysOf o₂) :=
  h.map Prod.fst

theorem getProp_perm : ∀ {o₁ o₂ : JsObj}, o₁.Perm o₂ → (keysOf o₁).Nodup →
    ∀ k, getProp o₁ k = getProp o₂ k := by
  intro o₁ o₂ h
  induction h with
  | nil => intro _ _; rfl
  | cons x h ih =>
    intro hnd k
    obtain ⟨kx, vx⟩ := x
    simp only [getProp]
    by_cases hk : kx = k
    · simp [hk]
    · simp only [hk, if_false]
      exact ih (by simpa [keysOf] using (List.nodup_cons.1 (by simpa [keysOf] using hnd)).2) k
  | swap x y l =>
    intro hnd k
    obtain ⟨kx, vx⟩ := x
    obtain ⟨ky, vy⟩ := y
    have hne : ky ≠ kx := by
      simp only [keysOf, List.map_cons, List.nodup_cons, List.mem_cons, List.mem_map] at hnd
      exact fun he => hnd.1 (Or.inl he)
    simp only [getProp]
    by_cases h1 : ky = k
    · subst h1
      simp [hne.symm]
    · by_cases h2 : kx = k <;> simp [h1, h2]
  | trans h1 h2 ih1 ih2 =>
    intro hnd k
    rw [ih1 hnd k]
    exact ih2 ((keysOf_perm h1).nodup hnd) k

theorem jsGet_perm {o₁ o₂ : JsObj} (h : o₁.Perm o₂) (hnd : (keysOf o₁).Nodup) (k : Str) :
    jsGet o₁ k = jsGet o₂ k := by
  unfold jsGet
  rw [getProp_perm h hnd k]

theorem hasProp_perm {o₁ o₂ : JsObj} (h : o₁.Perm o₂) (hnd : (keysOf o₁).Nodup) (k : Str) :
    hasProp o₁ k = hasProp o₂ k := by
  unfold hasProp
  rw [getProp_perm h hnd k]

theorem getProp_setProp_ne : ∀ (o : JsObj) (k : Str) (v : Json) (k2 : Str), k ≠ k2 →
    getProp (setProp o k v) k2 = getProp o k2
  | [], k, v, k2, h => by simp [setProp, getProp, h]
  | (k1, v1) :: rest, k, v, k2, h => by
    simp only [setProp]
    by_cases h1 : k1 = k
    · subst h1
      simp [getProp, h]
    · simp only [h1, if_false, getProp]
      by_cases h2 : k1 = k2
      · simp [h2]
      · simp [h2, getProp_setProp_ne rest k v k2 h]

theorem jsGet_registered (E : ExtFns) (body : JsObj) (k : Str)
    (h1 : k ≠ PROTOCOL_VERSION) (h2 : k ≠ TIMESTAMP) :
    jsGet (registerTimestamp E (registerProtocol body)) k = jsGet body k := by
  unfold jsGet registerTimestamp registerProtocol
  by_cases hp : jsExists (jsGet body PROTOCOL_VERSION) = true
  · simp only [hp, if_true]
    by_cases ht : jsExists (jsGet body TIMESTAMP) = true
    · simp [ht]
    · simp only [Bool.not_eq_true] at ht
      simp [ht, getProp_setProp_ne body TIMESTAMP _ k (Ne.symm h2)]
  · simp only [Bool.not_eq_true] at hp
    simp only [hp, Bool.false_eq_true, if_false]
    by_cases ht : jsExists (jsGet (setProp body PROTOCOL_VERSION (Json.str VERSION_BEFORE_PROTOCOL_VERSION_PROP)) TIMESTAMP) = true
    · simp only [ht, if_true]
      rw [getProp_setProp_ne body PROTOCOL_VERSION _ k (Ne.symm h1)]
    · simp only [Bool.not_eq_true] at ht
      simp only [ht, Bool.false_eq_true, if_false]
      rw [getProp_setProp_ne _ TIMESTAMP _ k (Ne.symm h2),
        getProp_setProp_ne body PROTOCOL_VERSION _ k (Ne.symm h1)]

theorem hasProp_registered (E : ExtFns) (body : JsObj) (k : Str)
    (h1 : k ≠ PROTOCOL_VERSION) (h2 : k ≠ TIMESTAMP) :
    hasProp (registerTimestamp E (registerProtocol body)) k = hasProp body k := by
  unfold hasProp registerTimestamp registerProtocol
  by_cases hp : jsExists (jsGet body PROTOCOL_VERSION) = true
  · simp only [hp, if_true]
    by_cases ht : jsExists (jsGet body TIMESTAMP) = true
    · simp [ht]
    · simp only [Bool.not_eq_true] at ht
      simp [ht, getProp_setProp_ne body TIMESTAMP _ k (Ne.symm h2)]
  · simp only [Bool.not_eq_true] at hp
    simp only [hp, Bool.false_eq_true, if_false]
    by_cases ht : jsExists (jsGet (setProp body PROTOCOL_VERSION (Json.str VERSION_BEFORE_PROTOCOL_VERSION_PROP)) TIMESTAMP) = true
    · simp only [ht, if_true]
      rw [getProp_setProp_ne body PROTOCOL_VERSION _ k (Ne.symm h1)]
    · simp only [Bool.not_eq_true] at ht
      simp only [ht, Bool.false_eq_true, if_false]
      rw [getProp_setProp_ne _ TIMESTAMP _ k (Ne.symm h2),
        getProp_setProp_ne body PROTOCOL_VERSION _ k (Ne.symm h1)]

theorem isPermalinked_registered (E : ExtFns) (body : JsObj) :
    isPermalinked (registerTimestamp E (registerProtocol body)) = isPermalinked body := by
  unfold isPermalinked
  rw [jsGet_registered E body PERMALINK (by decide) (by decide),
    jsGet_registered E body PREVLINK (by decide) (by decide),
    jsGet_registered E body PREVHEADER (by decide) (by decide),
    jsGet_registered E body VERSION (by decide) (by decide),
    hasProp_registered E body PERMALINK (by decide) (by decide)]

theorem isNotPermalinked_registered (E : ExtFns) (body : JsObj) :
    isNotPermalinked (registerTimestamp E (registerProtocol body)) = isNotPermalinked body := by
  unfold isNotPermalinked
  rw [jsGet_registered E body PREVLINK (by decide) (by decide),
    jsGet_registered E body PREVHEADER (by decide) (by decide),
    jsGet_registered E body VERSION (by decide) (by decide)]

theorem getProp_normEntries (E : ExtFns) (opts : MerkleOpts) :
    ∀ (o : JsObj) (k : Str),
      getProp (normEntries E opts o) k = (getProp o k).map (normVal E opts)
  | [], _ => rfl
  | (k1, v1) :: rest, k => by
    simp only [normEntries, getProp]
    by_cases h : k1 = k
    · simp [h]
    · simp [h, getProp_normEntries E opts rest k]

theorem getProp_preProcess_perm (E : ExtFns) (opts : MerkleOpts) {o₁ o₂ : JsObj}
    (h : o₁.Perm o₂) (hnd : (keysOf o₁).Nodup) (k : Str) :
    getProp (preProcessForMerklization E opts o₁) k
      = getProp (preProcessForMerklization E opts o₂) k := by
  have hpv : protocolVersionString o₁ = protocolVersionString o₂ := by
    unfold protocolVersionString
    rw [jsGet_perm h hnd PROTOCOL_VERSION]
  unfold preProcessForMerklization
  rw [hpv]
  cases getSemverMajor (protocolVersionString o₂) with
  | none => exact getProp_perm h hnd k
  | some major =>
    by_cases hm : 4 < major
    · simp only [hm, if_true]
      unfold normalizeEmbeddedMedia
      rw [getProp_normEntries, getProp_normEntries, getProp_perm h hnd k]
    · simp only [hm, if_false]
      exact getProp_perm h hnd k

theorem flatIndex_zero (n : Nat) : flatIndex 0 n = 2 * n := by
  unfold flatIndex
  simp [Nat.mul_comm]

theorem flatIndex_succ_odd (d o : Nat) : flatIndex (d + 1) o % 2 = 1 := by
  unfold flatIndex
  have h3 : 1 ≤ 2 ^ d := Nat.one_le_two_pow
  have h1 : 2 ^ (d + 1 + 1) = 4 * 2 ^ d := by ring
  have h2 : 2 ^ (d + 1) = 2 * 2 ^ d := by ring
  rw [h1, h2]
  have h4 : o * (4 * 2 ^ d) = 2 * (2 * o * 2 ^ d) := by ring
  rw [h4]
  generalize 2 * o * 2 ^ d = m
  generalize 2 ^ d = e at h3
  omega

theorem flatParent_odd (i : Nat) : flatParent i % 2 = 1 := by
  unfold flatParent
  exact flatIndex_succ_odd _ _

theorem mkLeaf_even (opts : MerkleOpts) (b : Nat) (d : Str) :
    (mkLeaf opts b d).index % 2 = 0 := by
  simp [mkLeaf, Nat.mul_mod_right]

theorem addRoot_spec (opts : MerkleOpts) :
    ∀ (roots : List MTNode) (node : MTNode),
      node.parent = flatParent node.index → RootsWF roots →
      RootsWF (addRoot opts node roots).1 ∧
      (∀ c ∈ (addRoot opts node roots).2, c.index % 2 = 1)
  | [], node, hn, _ => by
    refine ⟨?_, by simp [addRoot]⟩
    intro r hr
    simp only [addRoot, List.mem_singleton] at hr
    rw [hr]
    exact hn
  | left :: rest, node, hn, hw => by
    unfold addRoot
    by_cases h : left.parent = node.parent
    · simp only [h, if_true]
      have hwl : left.parent = flatParent left.index := hw left (by simp)
      have hp : (mkParentNode opts left node).parent
          = flatParent (mkParentNode opts left node).index := by
        simp [mkParentNode]
      have hrec := addRoot_spec opts rest (mkParentNode opts left node) hp
        (fun r hr => hw r (by simp [hr]))
      refine ⟨hrec.1, ?_⟩
      intro c hc
      rcases List.mem_cons.1 hc with hc | hc
      · rw [hc]
        show (mkParentNode opts left node).index % 2 = 1
        simp only [mkParentNode]
        rw [hwl]
        exact flatParent_odd _
      · exact hrec.2 c hc
    · simp only [h, if_false]
      refine ⟨?_, by simp⟩
      intro r hr
      rcases List.mem_cons.1 hr with hr | hr
      · rw [hr]; exact hn
      · exact hw r hr

theorem genNext_spec (opts : MerkleOpts) (st : GenState) (d : Str)
    (hw : RootsWF st.roots) :
    RootsWF (genNext opts st d).1.roots ∧
    (genNext opts st d).1.blocks = st.blocks + 1 ∧
    ((genNext opts st d).2.filter (fun n => n.index % 2 = 0))
      = [mkLeaf opts st.blocks d] := by
  have hleafwf : (mkLeaf opts st.blocks d).parent
      = flatParent (mkLeaf opts st.blocks d).index := by simp [mkLeaf]
  have hspec := addRoot_spec opts st.roots (mkLeaf opts st.blocks d) hleafwf hw
  refine ⟨hspec.1, rfl, ?_⟩
  show ((mkLeaf opts st.blocks d :: (addRoot opts (mkLeaf opts st.blocks d) st.roots).2).filter
      (fun n => n.index % 2 = 0)) = [mkLeaf opts st.blocks d]
  rw [List.filter_cons]
  have hcond : decide ((mkLeaf opts st.blocks d).index % 2 = 0) = true := by
    simp only [decide_eq_true_eq]
    exact mkLeaf_even opts st.blocks d
  rw [hcond]
  simp only [if_true]
  congr 1
  rw [List.filter_eq_nil_iff]
  intro c hc
  have := hspec.2 c hc
  simp [this]

theorem genFeed_spec (opts : MerkleOpts) :
    ∀ (ds : List Str) (st : GenState), RootsWF st.roots →
      RootsWF (genFeed opts st ds).1.roots ∧
      ((genFeed opts st ds).2.filter (fun n => n.index % 2 = 0))
        = expectedLeaves opts st.blocks ds
  | [], st, hw => by exact ⟨hw, rfl⟩
  | d :: ds, st, hw => by
    have hstep := genNext_spec opts st d hw
    have hrec := genFeed_spec opts ds (genNext opts st d).1 hstep.1
    refine ⟨hrec.1, ?_⟩
    show (((genNext opts st d).2 ++ (genFeed opts (genNext opts st d).1 ds).2).filter
        (fun n => n.index % 2 = 0)) = expectedLeaves opts st.blocks (d :: ds)
    rw [List.filter_append, hstep.2.2, hrec.2, hstep.2.1]
    rfl

theorem closeUp_odd (opts : MerkleOpts) :
    ∀ (roots : List MTNode) (r : MTNode), RootsWF (r :: roots) →
      ∀ c ∈ (closeUp opts r roots).2, c.index % 2 = 1
  | [], r, _, c, hc => by simp [closeUp] at hc
  | left :: rest, r, hw, c, hc => by
    unfold closeUp at hc
    have hwl : left.parent = flatParent left.index := hw left (by simp)
    have hwp : RootsWF (mkParentNode opts left r :: rest) := by
      intro x hx
      rcases List.mem_cons.1 hx with hx | hx
      · rw [hx]; simp [mkParentNode]
      · exact hw x (by simp [hx])
    rcases List.mem_cons.1 hc with hc | hc
    · rw [hc]
      show (mkParentNode opts left r).index % 2 = 1
      simp only [mkParentNode]
      rw [hwl]
      exact flatParent_odd _
    · exact closeUp_odd opts rest (mkParentNode opts left r) hwp c hc

theorem expectedLeaves_lb (opts : MerkleOpts) :
    ∀ (ds : List Str) (b : Nat) (x : MTNode), x ∈ expectedLeaves opts b ds →
      2 * b ≤ x.index
  | [], _, x, hx => by simp [expectedLeaves] at hx
  | d :: ds, b, x, hx => by
    rcases List.mem_cons.1 hx with hx | hx
    · rw [hx]; simp [mkLeaf]
    · have := expectedLeaves_lb opts ds (b + 1) x hx
      omega

theorem expectedLeaves_pairwise (opts : MerkleOpts) :
    ∀ (ds : List Str) (b : Nat),
      (expectedLeaves opts b ds).Pairwise (fun x y => x.index < y.index)
  | [], _ => List.Pairwise.nil
  | d :: ds, b => by
    refine List.Pairwise.cons ?_ (expectedLeaves_pairwise opts ds (b + 1))
    intro y hy
    have h1 := expectedLeaves_lb opts ds (b + 1) y hy
    have h2 : (mkLeaf opts b d).index = 2 * b := rfl
    rw [h2]
    omega

theorem byIndexLe_total (a b : MTNode) : (byIndexLe a b || byIndexLe b a) = true := by
  unfold byIndexLe
  by_cases h : a.index ≤ b.index
  · simp [h]
  · simp [Nat.le_of_not_le h]

theorem byIndexLe_trans {a b c : MTNode} (h1 : byIndexLe a b = true)
    (h2 : byIndexLe b c = true) : byIndexLe a c = true := by
  unfold byIndexLe at h1 h2 ⊢
  simp only [decide_eq_true_eq] at h1 h2 ⊢
  omega

theorem getLeaves_sorted (nodes : List MTNode) (L : List MTNode)
    (hL : getLeaves nodes = L) (hp : L.Pairwise (fun x y => x.index < y.index)) :
    getLeaves (sortLe byIndexLe nodes) = L := by
  have hperm : (getLeaves (sortLe byIndexLe nodes)).Perm L := by
    rw [← hL]
    exact List.Perm.filter _ (sortLe_perm byIndexLe nodes)
  have hs1 : (getLeaves (sortLe byIndexLe nodes)).Pairwise (fun a b => byIndexLe a b = true) := by
    exact List.Pairwise.filter _ (sortLe_pairwise byIndexLe_total byIndexLe_trans nodes)
  have hs2 : L.Pairwise (fun a b => byIndexLe a b = true) := by
    refine hp.imp ?_
    intro a b h
    unfold byIndexLe
    simp only [decide_eq_true_eq]
    omega
  refine perm_pairwise_eq hperm hs1 hs2 ?_
  intro a ha b hb h1 h2
  have haL : a ∈ L := hperm.subset ha
  have hbL : b ∈ L := hperm.subset hb
  unfold byIndexLe at h1 h2
  simp only [decide_eq_true_eq] at h1 h2
  exact pairwise_strict_inj hp a haL b hbL (Nat.le_antisymm h1 h2)

theorem expectedLeaves_get (opts : MerkleOpts) :
    ∀ (ds : List Str) (b j : Nat),
      (expectedLeaves opts b ds)[j]? = (ds[j]?).map (fun d => mkLeaf opts (b + j) d)
  | [], _, j => by simp [expectedLeaves]
  | d :: ds, b, 0 => by simp [expectedLeaves]
  | d :: ds, b, j + 1 => by
    simp only [expectedLeaves, List.getElem?_cons_succ]
    rw [expectedLeaves_get opts ds (b + 1) j]
    have h2 : b + 1 + j = b + (j + 1) := by omega
    rw [h2]

theorem expectedLeaves_length (opts : MerkleOpts) :
    ∀ (ds : List Str) (b : Nat), (expectedLeaves opts b ds).length = ds.length
  | [], _ => rfl
  | d :: ds, b => by
    simp [expectedLeaves, expectedLeaves_length opts ds (b + 1)]

theorem pairFlatMap_get_left {α β : Type} (f g : α → β) :
    ∀ (l : List α) (n : Nat),
      (l.flatMap (fun k => [f k, g k]))[2 * n]? = (l[n]?).map f
  | [], n => by simp
  | x :: xs, 0 => by simp
  | x :: xs, n + 1 => by
    have h : 2 * (n + 1) = (2 * n) + 1 + 1 := by omega
    simp only [List.flatMap_cons, h, List.cons_append, List.nil_append,
      List.getElem?_cons_succ]
    exact pairFlatMap_get_left f g xs n

theorem pairFlatMap_get_right {α β : Type} (f g : α → β) :
    ∀ (l : List α) (n : Nat),
      (l.flatMap (fun k => [f k, g k]))[2 * n + 1]? = (l[n]?).map g
  | [], n => by simp
  | x :: xs, 0 => by simp
  | x :: xs, n + 1 => by
    have h : 2 * (n + 1) + 1 = (2 * n + 1) + 1 + 1 := by omega
    simp only [List.flatMap_cons, h, List.cons_append, List.nil_append,
      List.getElem?_cons_succ]
    exact pairFlatMap_get_right f g xs n

theorem pairFlatMap_length {α β : Type} (f g : α → β) :
    ∀ l : List α, (l.flatMap (fun k => [f k, g k])).length = 2 * l.length
  | [] => rfl
  | x :: xs => by
    simp only [List.flatMap_cons, List.length_append, pairFlatMap_length f g xs]
    simp
    omega

theorem getIndicesAux_get :
    ∀ (ks : List Str) (i n : Nat),
      (getIndicesAux (2 * i) ks)[n]? = (ks[n]?).map
        (fun k => (k, TreeIndex.mk (flatIndex 0 (2 * (i + n))) (flatIndex 0 (2 * (i + n) + 1))))
  | [], i, n => by simp [getIndicesAux]
  | k :: ks, i, 0 => by simp [getIndicesAux]
  | k :: ks, i, n + 1 => by
    have h : 2 * i + 2 = 2 * (i + 1) := by omega
    simp only [getIndicesAux, List.getElem?_cons_succ, h]
    rw [getIndicesAux_get ks (i + 1) n]
    have h2 : i + 1 + n = i + (n + 1) := by omega
    rw [h2]

/-- C9: for every 32-byte buffer, link (getLink) returns the buffer itself
without hashing: hex-encoded under the default encoding, and the raw bytes
when no encoding is requested (the null encoding; the JavaScript default
parameter turns an undefined encoding into hex). -/
theorem getLink_rawHash_identity (E : ExtFns) (b : List Nat) (h : b.length = 32) :
    getLink E (.buf b) (some ()) = .ok (.str (hexEncode b)) ∧
    getLink E (.buf b) none = .ok (.buf b) := by
  refine ⟨?_, ?_⟩ <;> simp [getLink, h]

theorem getLink_rawHash_identity_witness :
    getLink extZero (.buf (List.replicate 32 7)) (some ())
        = .ok (.str (hexEncode (List.replicate 32 7))) ∧
      getLink extZero (.buf (List.replicate 32 7)) none
        = .ok (.buf (List.replicate 32 7)) :=
  getLink_rawHash_identity extZero (List.replicate 32 7) (by decide)

/-- C10: createMerkleTree (tree, and computeMerkleRoot through it) raises
InvalidProperty on any object carrying a signature property instead of
building a tree; an object must be stripped to its body first. -/
theorem createMerkleTree_rejects_signed (E : ExtFns) (opts : MerkleOpts) (obj : JsObj)
    (h : hasProp obj SIG = true) :
    createMerkleTree E opts obj
      = .error (.invalidProperty SIG (("expected unsigned object").codes)) := by
  unfold createMerkleTree ensureUnsigned
  rw [h]
  rfl

theorem createMerkleTree_rejects_signed_witness :
    createMerkleTree extZero idOpts c3obj
      = .error (.invalidProperty SIG (("expected unsigned object").codes)) :=
  createMerkleTree_rejects_signed extZero idOpts c3obj (by decide)

/-- C8: whenever the protocolVersion of an object has major version at most
4 (the absent property defaults to 4.0.0, hence major 4),
preProcessForMerklization returns its argument itself; and since the model
is pure and the above-threshold branch operates on a deep copy
(normalizeEmbeddedMedia over a cloned value), no caller object is ever
mutated. -/
theorem preProcessForMerklization_identity_below_threshold (E : ExtFns)
    (opts : MerkleOpts) (obj : JsObj) (m : Nat)
    (h1 : getSemverMajor (protocolVersionString obj) = some m) (h2 : m ≤ 4) :
    preProcessForMerklization E opts obj = obj := by
  have h3 : ¬ 4 < m := by omega
  simp [preProcessForMerklization, h1, h3]

theorem preProcessForMerklization_identity_below_threshold_witness :
    preProcessForMerklization extZero idOpts c7goodOut = c7goodOut :=
  preProcessForMerklization_identity_below_threshold extZero idOpts c7goodOut 4
    (by decide) (by decide)

/-- C6: publicKeyCombineEach (the target of publicKeyCombine) never returns
a key when the curve identifier strings differ, raising a hard error
instead; when they agree, the result lives on the same curve and its point
is the elliptic-curve point addition of the two inputs (the native
secp256k1 combine on that curve, the generic elliptic backend
otherwise). -/
theorem publicKeyCombineEach_curve_rule (E : ExtFns) (a b : PublicKey) :
    (∀ r, publicKeyCombineEach E a b = .ok r →
      a.curve = b.curve ∧ r.curve = a.curve ∧ r.pub = ecPointAdd E a.curve a.pub b.pub) ∧
    (a.curve ≠ b.curve → publicKeyCombineEach E a b
      = .error (.genericError (("Can not combine curves, curves of different type.").codes))) := by
  constructor
  · intro r hr
    unfold publicKeyCombineEach at hr
    by_cases h : a.curve = b.curve
    · rw [if_neg (by simp [h])] at hr
      refine ⟨h, ?_, ?_⟩
      · cases hr; rfl
      · cases hr; rfl
    · rw [if_pos h] at hr
      cases hr
  · intro h
    unfold publicKeyCombineEach
    rw [if_pos h]

theorem publicKeyCombineEach_curve_rule_witness :
    (c6KeyA.curve = c6KeyB.curve ∧
      ({ curve := c6KeyA.curve, pub := ecPointAdd extZero c6KeyA.curve c6KeyA.pub c6KeyB.pub } : PublicKey).curve = c6KeyA.curve ∧
      ({ curve := c6KeyA.curve, pub := ecPointAdd extZero c6KeyA.curve c6KeyA.pub c6KeyB.pub } : PublicKey).pub
        = ecPointAdd extZero c6KeyA.curve c6KeyA.pub c6KeyB.pub) ∧
    publicKeyCombineEach extZero c6KeyA c6KeyC
      = .error (.genericError (("Can not combine curves, curves of different type.").codes)) :=
  ⟨(publicKeyCombineEach_curve_rule extZero c6KeyA c6KeyB).1
      { curve := c6KeyA.curve, pub := ecPointAdd extZero c6KeyA.curve c6KeyA.pub c6KeyB.pub }
      (by rfl),
    (publicKeyCombineEach_curve_rule extZero c6KeyA c6KeyC).2 (by decide)⟩

/-- C2 (code bug): validateVersioning, on an object of version 1 whose
prevlink, prevheader and permalink all match the supplied prev and orig,
returns successfully even though the timestamp of the object does NOT
exceed the timestamp of prev (both are 5).  The only timestamp code on
this path is the call to ensureTimestampIncreased, whose boolean result
validatePrevVersioning discards, as the TODO comment in the source
acknowledges; the claim (and the spec) require a strictly greater
timestamp to be enforced. -/
theorem validateVersioning_timestamp_unchecked :
    ensureTimestampIncreased c2object c2prev = false ∧
    validateVersioning extZero c2object (some c2prev) (some (.str zeros64)) = .ok () := by
  constructor
  · decide
  · rfl

/-- C3 (amended): for every object with no witnesses property and no
organizational-signature property, link (getLink) agrees with headerHash
(getSealHeaderHash): both hash the same stringified header, since the pick
of HEADER_PROPS then collapses to the pick of LINK_HEADER_PROPS.  When the
object carries witnesses or an org signature the two headers differ, and
the counterexample below exhibits different hashes. -/
theorem link_eq_headerHash_unwitnessed (E : ExtFns) (obj : JsObj)
    (hw : hasProp obj WITNESSES = false) (ho : hasProp obj ORG_SIG = false) :
    getLink E (.obj obj) (some ()) = (getSealHeaderHash E obj).map BufOrStr.str := by
  have hwn : getProp obj WITNESSES = none := by
    cases hgp : getProp obj WITNESSES with
    | none => rfl
    | some v => rw [hasProp, hgp] at hw; cases hw
  have hon : getProp obj ORG_SIG = none := by
    cases hgp : getProp obj ORG_SIG with
    | none => rfl
    | some v => rw [hasProp, hgp] at ho; cases ho
  show getLinkObj E obj (some ()) = (getSealHeaderHash E obj).map BufOrStr.str
  unfold getLinkObj getSealHeaderHash getLinkHeader getSealHeader getHeader
  cases hsig : ensureSigned obj with
  | error e => simp [hsig, Bind.bind, Except.bind, Except.map]
  | ok u =>
    simp only [hsig, Bind.bind, Except.bind, Except.map, HEADER_PROPS, LINK_HEADER_PROPS]
    have hlist : List.filterMap (fun p => Option.map (fun v => (p, base64IfBuf v)) (getProp obj p))
          ([SIG] ++ [WITNESSES, ORG_SIG])
        = List.filterMap (fun p => Option.map (fun v => (p, base64IfBuf v)) (getProp obj p)) [SIG] := by
      simp [List.filterMap_cons, hwn, hon]
    rw [hlist]

theorem link_eq_headerHash_unwitnessed_witness :
    getLink extId (.obj c3plain) (some ()) = (getSealHeaderHash extId c3plain).map BufOrStr.str :=
  link_eq_headerHash_unwitnessed extId c3plain (by decide) (by decide)

/-- C3 (counterexample): on the signed object c3obj, which carries a
witnesses property, link and headerHash disagree (shown under the
identity digest instantiation extId: the two stringified headers already
differ, so their images differ). -/
theorem link_ne_headerHash_witnessed :
    getLink extId (.obj c3obj) (some ()) ≠ (getSealHeaderHash extId c3obj).map BufOrStr.str := by
  decide

theorem toPrivateKeyLoop_spec (E : ExtFns) :
    ∀ (fuel : Nat) (p : List Nat),
      (∀ r, toPrivateKeyLoop E fuel p = some r →
        privateKeyVerify r = true ∧
        ∃ k, r = E.sha256^[k] p ∧
          ∀ j < k, privateKeyVerify (E.sha256^[j] p) = false) ∧
      ((∃ k, k ≤ fuel ∧ privateKeyVerify (E.sha256^[k] p) = true) →
        (toPrivateKeyLoop E fuel p).isSome = true)
  | 0, p => by
    constructor
    · intro r hr
      unfold toPrivateKeyLoop at hr
      by_cases h : privateKeyVerify p = true
      · rw [if_pos h] at hr
        cases hr
        exact ⟨h, 0, rfl, fun j hj => absurd hj (Nat.not_lt_zero j)⟩
      · rw [if_neg h] at hr
        cases hr
    · rintro ⟨k, hk, hv⟩
      have hk0 : k = 0 := Nat.le_zero.1 hk
      subst hk0
      simp only [Function.iterate_zero, id] at hv
      unfold toPrivateKeyLoop
      rw [if_pos hv]
      rfl
  | fuel + 1, p => by
    constructor
    · intro r hr
      unfold toPrivateKeyLoop at hr
      by_cases h : privateKeyVerify p = true
      · rw [if_pos h] at hr
        cases hr
        exact ⟨h, 0, rfl, fun j hj => absurd hj (Nat.not_lt_zero j)⟩
      · rw [if_neg h] at hr
        obtain ⟨hv, k, hk, hfirst⟩ := (toPrivateKeyLoop_spec E fuel (E.sha256 p)).1 r hr
        refine ⟨hv, k + 1, ?_, ?_⟩
        · rw [hk, Function.iterate_succ_apply]
        · intro j hj
          cases j with
          | zero =>
            simp only [Function.iterate_zero, id]
            cases hvp : privateKeyVerify p
            · rfl
            · exact absurd hvp h
          | succ i =>
            rw [Function.iterate_succ_apply]
            exact hfirst i (by omega)
    · rintro ⟨k, hk, hv⟩
      unfold toPrivateKeyLoop
      by_cases h : privateKeyVerify p = true
      · rw [if_pos h]; rfl
      · rw [if_neg h]
        cases k with
        | zero =>
          simp only [Function.iterate_zero, id] at hv
          exact absurd hv h
        | succ i =>
          refine (toPrivateKeyLoop_spec E fuel (E.sha256 p)).2 ⟨i, by omega, ?_⟩
          rw [← Function.iterate_succ_apply]
          exact hv

theorem privateKeyVerify_props {r : List Nat} (h : privateKeyVerify r = true) :
    r.length = 32 ∧ 0 < beNat r ∧ beNat r < secpOrder := by
  unfold privateKeyVerify at h
  simp only [Bool.and_eq_true, decide_eq_true_eq] at h
  exact ⟨h.1.1, h.1.2, h.2⟩

/-- C5: whenever toPrivateKey (privateKeyFromHash) returns a key, that key
is a 32-byte scalar accepted by the secp256k1 validity check, i.e. nonzero
and below the curve order; it is obtained from the input by first hashing
a non-32-byte input once and then re-hashing with the digest primitive
until the first iterate that passes the check (the returned key is exactly
that first valid iterate).  Conversely the loop terminates within its fuel
as soon as any iterate within the fuel bound is valid; the source loop is
literally unbounded, which the spec itself qualifies as
unbounded-but-practically-terminating, so termination is stated relative
to the existence of a valid iterate. -/
theorem toPrivateKey_valid_key (E : ExtFns) (fuel : Nat) (priv : BufOrStr) :
    (∀ r, toPrivateKey E fuel priv = some r →
      r.length = 32 ∧ 0 < beNat r ∧ beNat r < secpOrder ∧
      ∃ k, r = E.sha256^[k] (toPrivateKeyInit E priv) ∧
        ∀ j < k, privateKeyVerify (E.sha256^[j] (toPrivateKeyInit E priv)) = false) ∧
    ((∃ k, k ≤ fuel ∧ privateKeyVerify (E.sha256^[k] (toPrivateKeyInit E priv)) = true) →
      (toPrivateKey E fuel priv).isSome = true) := by
  constructor
  · intro r hr
    obtain ⟨hv, k, hk, hfirst⟩ :=
      (toPrivateKeyLoop_spec E fuel (toPrivateKeyInit E priv)).1 r hr
    obtain ⟨h1, h2, h3⟩ := privateKeyVerify_props hv
    exact ⟨h1, h2, h3, k, hk, hfirst⟩
  · exact (toPrivateKeyLoop_spec E fuel (toPrivateKeyInit E priv)).2

theorem toPrivateKey_valid_key_witness :
    ((List.replicate 31 0 ++ [1]).length = 32 ∧
      0 < beNat (List.replicate 31 0 ++ [1]) ∧
      beNat (List.replicate 31 0 ++ [1]) < secpOrder ∧
      ∃ k, (List.replicate 31 0 ++ [1]) = extValidKey.sha256^[k] (toPrivateKeyInit extValidKey (.buf [5])) ∧
        ∀ j < k, privateKeyVerify (extValidKey.sha256^[j] (toPrivateKeyInit extValidKey (.buf [5]))) = false) ∧
    (toPrivateKey extValidKey 0 (.buf [5])).isSome = true :=
  ⟨(toPrivateKey_valid_key extValidKey 0 (.buf [5])).1 (List.replicate 31 0 ++ [1]) (by decide),
    (toPrivateKey_valid_key extValidKey 0 (.buf [5])).2 ⟨0, Nat.le_refl 0, by decide⟩⟩

theorem ensureCorrectlyPermalinked_ok {obj : JsObj} {u : Unit}
    (h : ensureCorrectlyPermalinked obj = .ok u) : isCorrectlyPermalinked obj = true := by
  unfold ensureCorrectlyPermalinked at h
  by_cases hc : isCorrectlyPermalinked obj = true
  · exact hc
  · rw [if_neg hc] at h
    cases h

/-- C7: every object createObject returns satisfies the version-chain
invariant of lib/types.ts: either permalink, prevlink and prevheader are
all present as strings with a positive version (isPermalinked), or neither
prevlink nor prevheader is present and the version is undefined or 0
(isNotPermalinked); and whenever the constructed body violates the
invariant, createObject raises InvalidVersion instead of returning. -/
theorem createObject_version_chain_invariant (E : ExtFns) (opts : CreateObjectOpts) :
    (∀ o, createObject E opts = .ok o →
      isPermalinked o = true ∨ isNotPermalinked o = true) ∧
    (∀ body, entireCreateObjectInput opts = .ok () → applyLinks E opts = .ok body →
      isCorrectlyPermalinked body = false →
      createObject E opts = .error (.invalidVersion
        (("expected either permalink, prevlink and version > 0, or neither, and version === 0").codes))) := by
  constructor
  · intro o ho
    unfold createObject at ho
    cases h1 : entireCreateObjectInput opts with
    | error e => rw [h1] at ho; simp [Bind.bind, Except.bind] at ho
    | ok u =>
      rw [h1] at ho
      simp only [Bind.bind, Except.bind] at ho
      cases h2 : applyLinks E opts with
      | error e => rw [h2] at ho; simp at ho
      | ok body =>
        rw [h2] at ho
        simp only at ho
        cases h3 : ensureCorrectlyPermalinked body with
        | error e => rw [h3] at ho; simp at ho
        | ok u2 =>
          rw [h3] at ho
          simp only [pure, Except.pure, Except.ok.injEq] at ho
          have hcp := ensureCorrectlyPermalinked_ok h3
          unfold isCorrectlyPermalinked at hcp
          rw [← ho, isPermalinked_registered, isNotPermalinked_registered]
          rw [Bool.or_eq_true] at hcp
          rcases hcp with h | h
          · exact Or.inl h
          · exact Or.inr h
  · intro body h1 h2 h3
    unfold createObject
    rw [h1]
    simp only [Bind.bind, Except.bind]
    rw [h2]
    simp only
    have h4 : ensureCorrectlyPermalinked body = .error (.invalidVersion
        (("expected either permalink, prevlink and version > 0, or neither, and version === 0").codes)) := by
      unfold ensureCorrectlyPermalinked
      rw [h3]
      rfl
    rw [h4]

theorem createObject_version_chain_invariant_witness :
    (isPermalinked c7goodOut = true ∨ isNotPermalinked c7goodOut = true) ∧
    createObject extZero c7badOpts = .error (.invalidVersion
      (("expected either permalink, prevlink and version > 0, or neither, and version === 0").codes)) :=
  ⟨(createObject_version_chain_invariant extZero c7goodOpts).1 c7goodOut (by rfl),
    (createObject_version_chain_invariant extZero c7badOpts).2 c7badBody (by rfl) (by rfl) (by decide)⟩

/-- C1 (amended): computeMerkleRoot is independent of property insertion
order for every pair of objects that are permutations of each other whose
keys are pairwise distinct after case folding; the canonical order is the
stable case-insensitive lexicographic sort of getKeysSorted, which on such
objects is insertion-order independent.  When two keys fold to the same
lowercase string the stable sort keeps them in INSERTION order, not in
byte-wise order, so the root can depend on insertion order; the
counterexample below exhibits this. -/
theorem merkleRoot_insertion_order_independent (E : ExtFns) (opts : MerkleOpts)
    (o₁ o₂ : JsObj) (hperm : o₁.Perm o₂)
    (hfold : (keysOf o₁).Pairwise (fun a b => E.jsToLower a ≠ E.jsToLower b)) :
    getKeysSorted E o₁ = getKeysSorted E o₂ ∧
    computeMerkleRoot E opts o₁ = computeMerkleRoot E opts o₂ := by
  have hnd : (keysOf o₁).Nodup := hfold.imp (fun h => fun heq => h (by rw [heq]))
  have hkeys : getKeysSorted E o₁ = getKeysSorted E o₂ := by
    show sortLe (alphaLe E) (keysOf o₁) = sortLe (alphaLe E) (keysOf o₂)
    apply @perm_pairwise_eq Str (alphaLe E)
    · exact (sortLe_perm _ _).trans ((keysOf_perm hperm).trans (sortLe_perm (alphaLe E) (keysOf o₂)).symm)
    · exact sortLe_pairwise (alphaLe_total E) (alphaLe_trans E) _
    · exact sortLe_pairwise (alphaLe_total E) (alphaLe_trans E) _
    · intro a ha b hb h1 h2
      have ha2 : a ∈ keysOf o₁ := (sortLe_perm _ _).subset ha
      have hb2 : b ∈ keysOf o₁ := (sortLe_perm _ _).subset hb
      by_cases hab : a = b
      · exact hab
      · have hsymm : Symmetric (fun a b : Str => E.jsToLower a ≠ E.jsToLower b) :=
          fun x y h => fun he => h he.symm
        have hfold2 := List.Pairwise.forall hsymm hfold ha2 hb2 hab
        exact absurd (alphaLe_antisymm_fold E h1 h2) hfold2
  have hsig : hasProp o₁ SIG = hasProp o₂ SIG := hasProp_perm hperm hnd SIG
  have hldl : leafDataList E opts o₁ = leafDataList E opts o₂ := by
    show (getKeysSorted E o₁).flatMap
        (fun k => [stringify (Json.str k), stringify (jsGet (preProcessForMerklization E opts o₁) k)])
      = (getKeysSorted E o₂).flatMap
        (fun k => [stringify (Json.str k), stringify (jsGet (preProcessForMerklization E opts o₂) k)])
    rw [hkeys]
    congr 1
    funext k
    unfold jsGet
    rw [getProp_preProcess_perm E opts hperm hnd k]
  have htree : createMerkleTree E opts o₁ = createMerkleTree E opts o₂ := by
    unfold createMerkleTree ensureUnsigned
    simp only [getIndices, Option.getD_some]
    rw [hsig, hldl, hkeys]
  refine ⟨hkeys, ?_⟩
  unfold computeMerkleRoot
  rw [htree]

theorem merkleRoot_insertion_order_independent_witness :
    getKeysSorted extZero c1GoodA = getKeysSorted extZero c1GoodB ∧
    computeMerkleRoot extZero idOpts c1GoodA = computeMerkleRoot extZero idOpts c1GoodB :=
  merkleRoot_insertion_order_independent extZero idOpts c1GoodA c1GoodB
    (List.Perm.swap _ _ _)
    (by
      refine List.Pairwise.cons ?_ (List.pairwise_singleton _ _)
      intro b hb
      simp only [List.map_cons, List.map_nil, List.mem_singleton] at hb
      subst hb
      decide)

/-- C1 (counterexample): the objects c1CollA and c1CollB map the same two
property names a and A to the same values and differ only in insertion
order, yet getKeysSorted orders the case-folding-equal keys by insertion
order (not byte-wise order) and computeMerkleRoot returns different roots
(shown with the override hash pair the repository tests use). -/
theorem merkleRoot_insertion_order_dependent :
    c1CollA.Perm c1CollB ∧
    getKeysSorted extZero c1CollA ≠ getKeysSorted extZero c1CollB ∧
    getKeysSorted extZero c1CollA ≠ sortLe (fun a b => !(lexLt b a)) (keysOf c1CollA) ∧
    computeMerkleRoot extZero idOpts c1CollA ≠ computeMerkleRoot extZero idOpts c1CollB := by
  refine ⟨List.Perm.swap _ _ _, ?_, ?_, ?_⟩
  · decide
  · decide
  · decide

theorem closeAllRoots_odd (opts : MerkleOpts) (roots : List MTNode) (hw : RootsWF roots) :
    ∀ c ∈ (closeAllRoots opts roots).2, c.index % 2 = 1 := by
  cases roots with
  | nil => intro c hc; simp [closeAllRoots] at hc
  | cons r rest =>
    intro c hc
    exact closeUp_odd opts rest r (fun x hx => hw x hx) c hc

/-- C4: for an unsigned object with k canonically sorted properties the
tree is built from exactly 2k leaves; the leaves of the sorted node list
are, in order, leaf number j for payload number j, where payload 2n is the
canonical stringification of the n-th property name and payload 2n + 1 the
canonical stringification of its (preprocessed) value; leaf number j has
flat-tree index 2j, so the key and value leaves of property n sit at
flat-tree positions flatIndex(0, 2n) = 4n and flatIndex(0, 2n + 1) =
4n + 2, which is exactly what the indices map records. -/
theorem createMerkleTree_leaf_layout (E : ExtFns) (opts : MerkleOpts) (obj : JsObj)
    (t : TradleTree) (h : createMerkleTree E opts obj = .ok t) :
    getLeaves t.nodes = expectedLeaves opts 0 (leafDataList E opts obj) ∧
    (getLeaves t.nodes).length = 2 * (getKeysSorted E obj).length ∧
    (∀ j, (getLeaves t.nodes)[j]?
      = ((leafDataList E opts obj)[j]?).map (fun d => mkLeaf opts j d)) ∧
    (∀ n, (leafDataList E opts obj)[2 * n]?
      = ((getKeysSorted E obj)[n]?).map (fun k => stringify (Json.str k))) ∧
    (∀ n, (leafDataList E opts obj)[2 * n + 1]?
      = ((getKeysSorted E obj)[n]?).map
          (fun k => stringify (jsGet (preProcessForMerklization E opts obj) k))) ∧
    (∀ n, t.indices[n]?
      = ((getKeysSorted E obj)[n]?).map
          (fun k => (k, TreeIndex.mk (flatIndex 0 (2 * n)) (flatIndex 0 (2 * n + 1))))) ∧
    (∀ n, flatIndex 0 (2 * n) = 4 * n ∧ flatIndex 0 (2 * n + 1) = 4 * n + 2) := by
  have hds : leafDataList E opts obj = (getKeysSorted E obj).flatMap
      (fun k => [stringify (Json.str k), stringify (jsGet (preProcessForMerklization E opts obj) k)]) := rfl
  unfold createMerkleTree ensureUnsigned at h
  by_cases hs : hasProp obj SIG = true
  · rw [hs] at h
    simp [Bind.bind, Except.bind] at h
  · rw [Bool.not_eq_true] at hs
    rw [hs] at h
    simp only [Bool.false_eq_true, if_false, Bind.bind, Except.bind, Except.ok.injEq] at h
    have hwf0 : RootsWF ([] : List MTNode) := fun r hr => absurd hr (List.not_mem_nil r)
    have hfeed := genFeed_spec opts (leafDataList E opts obj) { roots := [], blocks := 0 } hwf0
    have hclosed : (closeAllRoots opts
        (genFeed opts { roots := [], blocks := 0 } (leafDataList E opts obj)).1.roots).2.filter
          (fun n => n.index % 2 = 0) = [] := by
      rw [List.filter_eq_nil_iff]
      intro c hc
      have hodd := closeAllRoots_odd opts _ hfeed.1 c hc
      simp [hodd]
    have hleaves0 : getLeaves
        ((genFeed opts { roots := [], blocks := 0 } (leafDataList E opts obj)).2
          ++ (closeAllRoots opts
              (genFeed opts { roots := [], blocks := 0 } (leafDataList E opts obj)).1.roots).2)
        = expectedLeaves opts 0 (leafDataList E opts obj) := by
      unfold getLeaves
      rw [List.filter_append, hclosed, List.append_nil]
      exact hfeed.2
    have hnodes : getLeaves t.nodes = expectedLeaves opts 0 (leafDataList E opts obj) := by
      rw [← h]
      exact getLeaves_sorted _ _ hleaves0 (expectedLeaves_pairwise opts _ 0)
    have hindices : t.indices = getIndicesAux 0 (getKeysSorted E obj) := by
      rw [← h]
      rfl
    refine ⟨hnodes, ?_, ?_, ?_, ?_, ?_, ?_⟩
    · rw [hnodes, expectedLeaves_length, hds, pairFlatMap_length]
    · intro j
      rw [hnodes, expectedLeaves_get]
      simp
    · intro n
      rw [hds]
      exact pairFlatMap_get_left _ _ _ n
    · intro n
      rw [hds]
      exact pairFlatMap_get_right _ _ _ n
    · intro n
      rw [hindices]
      have := getIndicesAux_get (getKeysSorted E obj) 0 n
      simpa using this
    · intro n
      rw [flatIndex_zero, flatIndex_zero]
      omega

theorem createMerkleTree_leaf_layout_witness :
    getLeaves c4tree.nodes = expectedLeaves idOpts 0 (leafDataList extZero idOpts c4obj) ∧
    (getLeaves c4tree.nodes).length = 2 * (getKeysSorted extZero c4obj).length ∧
    (∀ j, (getLeaves c4tree.nodes)[j]?
      = ((leafDataList extZero idOpts c4obj)[j]?).map (fun d => mkLeaf idOpts j d)) ∧
    (∀ n, (leafDataList extZero idOpts c4obj)[2 * n]?
      = ((getKeysSorted extZero c4obj)[n]?).map (fun k => stringify (Json.str k))) ∧
    (∀ n, (leafDataList extZero idOpts c4obj)[2 * n + 1]?
      = ((getKeysSorted extZero c4obj)[n]?).map
          (fun k => stringify (jsGet (preProcessForMerklization extZero idOpts c4obj) k))) ∧
    (∀ n, c4tree.indices[n]?
      = ((getKeysSorted extZero c4obj)[n]?).map
          (fun k => (k, TreeIndex.mk (flatIndex 0 (2 * n)) (flatIndex 0 (2 * n + 1))))) ∧
    (∀ n, flatIndex 0 (2 * n) = 4 * n ∧ flatIndex 0 (2 * n + 1) = 4 * n + 2) :=
  createMerkleTree_leaf_layout extZero idOpts c4obj c4tree (by rfl)
